import Mathlib

/-!
# A verification model of the go-core adapter registry

This file is a shallow embedding, in Lean 4, of the registry/instantiation
engine of the `bartdeboer/go-core` repository: the config index and meta
loader (`meta.go`), the dependency resolver (`dep.go`) and the registry
construction lifecycle (`registry.go`, the revision that carries `keyGen`,
`resolveWorkDir` and `newAdapterWithContext`).

Embedding conventions:

* Go strings are Lean `String`s.  All character-level operations
  (`strings.ToLower`, `strings.TrimSpace`, `strings.Split`,
  `strings.EqualFold`, byte-wise comparison used by `sort.Strings`) are
  modelled over `String.data` with ASCII semantics; the configuration names,
  tags and paths this engine manipulates are ASCII, where Go's Unicode
  treatment agrees with the ASCII one.  Go's `[]byte(s)` conversion is
  modelled by an explicit UTF-8 encoder.
* Go maps are association lists; the engine only ever builds maps with
  distinct keys.  Iteration order of a Go map is unspecified; theorems below
  either do not depend on the order or fix a concrete environment in which
  every iterated map has at most one entry.
* Machine integers (`hash/fnv`'s 64-bit state) are `Nat` with explicit
  reduction `% 2^64`.
* Fallible Go functions returning `error` become `Except Err _`.
  `errors.Is(err, os.ErrNotExist)` becomes the predicate `Err.isNotExist`,
  which survives the `%w` wrappings the source applies.
* The file system, the factory table, the `CORE_CONTEXT_MAP` override table
  and the process working directory are an explicit environment `Env`;
  the registry's mutable instance cache is an explicit state `RegState`.
  Adapter values ("pointers") are numeric instance ids allocated from a
  counter, so pointer equality is id equality.  A Go zero factory allocates
  a fresh object; the model allocates the id when the instance is first
  retained (stored into the cache), which is the only point where the
  allocation becomes observable.
* Reflection over an adapter struct (capability probing with type
  assertions, `core:"..."` field tags, field lookup/assignability) is
  modelled by a per-factory `FactorySpec`: capability booleans, and a list
  of `FieldSpec`s carrying the field name, exportedness, raw tag, and an
  assignability predicate standing for `reflect.Type.AssignableTo`.
-/

/-! ## ASCII string primitives (strings.ToLower, TrimSpace, Split, EqualFold) -/

/-- ASCII lower-casing of one character (`strings.ToLower` on ASCII input). -/
def toLowerChar (c : Char) : Char :=
  if 'A' ≤ c ∧ c ≤ 'Z' then Char.ofNat (c.toNat + 32) else c

/-- Model of Go `strings.ToLower` (ASCII fragment). -/
def toLower (s : String) : String :=
  String.mk (s.data.map toLowerChar)

/-- Model of Go `strings.EqualFold` (ASCII case folding). -/
def equalFold (a b : String) : Bool :=
  toLower a == toLower b

/-- ASCII white space, as recognised by `strings.TrimSpace` on ASCII input. -/
def isSpaceChar (c : Char) : Bool :=
  c = ' ' ∨ c = '\t' ∨ c = '\n' ∨ c = '\r'

/-- Model of Go `strings.TrimSpace` (ASCII fragment). -/
def trimSpace (s : String) : String :=
  String.mk (((s.data.dropWhile isSpaceChar).reverse.dropWhile isSpaceChar).reverse)

/-- Split a character list at every occurrence of `sep`; always returns at
least one (possibly empty) part, like Go `strings.Split`. -/
def splitCharsOn (sep : Char) : List Char → List (List Char)
  | [] => [[]]
  | c :: rest =>
    let r := splitCharsOn sep rest
    if c = sep then [] :: r
    else
      match r with
      | h :: t => (c :: h) :: t
      | [] => [[c]]

/-- Model of Go `strings.Split(s, ",")`. -/
def splitComma (s : String) : List String :=
  (splitCharsOn ',' s.data).map String.mk

/-- `List.isSuffixOf` for characters, decidable and executable. -/
def charSuffix (suf s : List Char) : Bool :=
  Nat.ble suf.length s.length && decide (s.drop (s.length - suf.length) = suf)

/-- Model of Go `strings.TrimSuffix`. -/
def trimSuffix (s suf : String) : String :=
  if charSuffix suf.data s.data then
    String.mk (s.data.take (s.data.length - suf.data.length))
  else s

/-- Byte-wise (here: character-wise, which for UTF-8 encoded text induces the
same order) lexicographic comparison, as used by Go `sort.Strings`. -/
def lexLEChars : List Char → List Char → Bool
  | [], _ => true
  | _ :: _, [] => false
  | a :: as, b :: bs =>
    if a.toNat < b.toNat then true
    else if b.toNat < a.toNat then false
    else lexLEChars as bs

/-- The string order used by `sort.Strings`. -/
def strLE (a b : String) : Bool :=
  lexLEChars a.data b.data

/-- Insert into a sorted list, keeping it sorted under `strLE`. -/
def orderedInsertStr (a : String) : List String → List String
  | [] => [a]
  | b :: l => if strLE a b then a :: b :: l else b :: orderedInsertStr a l

/-- Model of Go `sort.Strings` (ascending lexicographic sort; `sort.Strings`
is specified only up to sortedness, and equal keys cannot occur twice in the
index, so any sorting algorithm is an exact model). -/
def sortStrings : List String → List String
  | [] => []
  | a :: l => orderedInsertStr a (sortStrings l)

/-! ## UTF-8 and the FNV-1a 64-bit hash (`hash/fnv`), used by `keyGen` -/

/-- UTF-8 encoding of one character, the byte sequence Go's `[]byte(s)`
produces for it. -/
def utf8EncodeCharBytes (c : Char) : List Nat :=
  let n := c.toNat
  if n < 0x80 then [n]
  else if n < 0x800 then [0xC0 + n / 64, 0x80 + n % 64]
  else if n < 0x10000 then [0xE0 + n / 4096, 0x80 + (n / 64) % 64, 0x80 + n % 64]
  else [0xF0 + n / 262144, 0x80 + (n / 4096) % 64, 0x80 + (n / 64) % 64, 0x80 + n % 64]

/-- The bytes of a Go string: UTF-8 encoding of its characters. -/
def strBytes (s : String) : List Nat :=
  s.data.foldr (fun c acc => utf8EncodeCharBytes c ++ acc) []

/-- `fnv.New64a()` offset basis. -/
def fnvOffset64 : Nat := 14695981039346656037

/-- FNV-1a 64-bit prime. -/
def fnvPrime64 : Nat := 1099511628211

/-- One FNV-1a step: xor in the byte, multiply by the prime, within 64 bits. -/
def fnv1aStep (h b : Nat) : Nat :=
  ((h ^^^ b) * fnvPrime64) % 2 ^ 64

/-- `h.Sum64()` after writing `bs` to a fresh `fnv.New64a()` hash. -/
def fnv64a (bs : List Nat) : Nat :=
  bs.foldl fnv1aStep fnvOffset64

/-- Lower-case hexadecimal digit. -/
def hexDigit (n : Nat) : Char :=
  if n < 10 then Char.ofNat (48 + n) else Char.ofNat (87 + n)

/-- `w`-digit zero-padded lower-case hexadecimal rendering, most significant
digit first. -/
def natToHex : Nat → Nat → List Char
  | 0, _ => []
  | w + 1, n => natToHex w (n / 16) ++ [hexDigit (n % 16)]

/-- Model of Go `fmt.Sprintf("%016x", n)` for `n < 2^64`. -/
def hex16 (n : Nat) : String :=
  String.mk (natToHex 16 n)

/-! ## Association lists standing for Go maps -/

/-- First-match association-list lookup; the engine only builds maps with
distinct keys, for which this is exactly Go map indexing. -/
def alookup {κ : Type} {α : Type} [DecidableEq κ] : List (κ × α) → κ → Option α
  | [], _ => none
  | (k, v) :: rest, key => if k = key then some v else alookup rest key

/-- Go map assignment `m[k] = v` on the association-list model. -/
def updKey {κ : Type} {α : Type} [DecidableEq κ] (l : List (κ × α)) (k : κ) (v : α) :
    List (κ × α) :=
  (k, v) :: l.filter (fun p => p.1 ≠ k)

/-- Last-occurrence lookup: what a JSON object with (possibly) repeated keys
decodes to for a given key (`encoding/json` keeps the last value). -/
def lookupLast {α : Type} (l : List (String × α)) (k : String) : Option α :=
  alookup l.reverse k

/-- Strict `Option` fallback (`a` if present, else `b`). -/
def ofirst {α : Type} (a b : Option α) : Option α :=
  match a with
  | some v => some v
  | none => b

/-! ## Go `path/filepath` (Unix flavour): IsAbs, Clean, Join, Dir, Base, Abs -/

/-- `filepath.IsAbs` on Unix: the path begins with a separator. -/
def isAbs (p : String) : Bool :=
  match p.data with
  | c :: _ => c = '/'
  | [] => false

/-- Split a path's characters into segments at `'/'`. -/
def splitSlash (cs : List Char) : List (List Char) :=
  splitCharsOn '/' cs

/-- Join path segments with `'/'`. -/
def joinSegs : List (List Char) → List Char
  | [] => []
  | [s] => s
  | s :: rest => s ++ '/' :: joinSegs rest

/-- One step of `filepath.Clean`'s element processing: drop empty and `.`
elements, resolve `..` against the element stack (`acc`, kept reversed). -/
def cleanPush (rooted : Bool) (acc : List (List Char)) (seg : List Char) :
    List (List Char) :=
  if seg = [] ∨ seg = ['.'] then acc
  else if seg = ['.', '.'] then
    match acc with
    | t :: rest => if t = ['.', '.'] then seg :: acc else rest
    | [] => if rooted then [] else [['.', '.']]
  else seg :: acc

/-- The cleaned segment list of a path. -/
def cleanSegs (rooted : Bool) (segs : List (List Char)) : List (List Char) :=
  (segs.foldl (cleanPush rooted) []).reverse

/-- Model of Go `filepath.Clean` (Unix). -/
def goClean (p : String) : String :=
  match p.data with
  | [] => "."
  | c :: cs =>
    let rooted := c = '/'
    let segs := cleanSegs rooted (splitSlash (c :: cs))
    if rooted then String.mk ('/' :: joinSegs segs)
    else if segs = [] then "." else String.mk (joinSegs segs)

/-- Model of Go `filepath.Join(a, b)`: empty elements are dropped, the rest
joined with a separator, and the result cleaned. -/
def goJoin (a b : String) : String :=
  if a = "" then (if b = "" then "" else goClean b)
  else if b = "" then goClean a
  else goClean (String.mk (a.data ++ '/' :: b.data))

/-- The characters of a path up to and including its last separator
(empty when the path has no separator), as `filepath.Dir` slices them. -/
def uptoLastSlash (cs : List Char) : List Char :=
  ((cs.reverse.dropWhile (fun c => c ≠ '/'))).reverse

/-- Model of Go `filepath.Dir`. -/
def goDir (p : String) : String :=
  goClean (String.mk (uptoLastSlash p.data))

/-- Model of Go `filepath.Base`. -/
def goBase (p : String) : String :=
  if p = "" then "."
  else
    let cs := p.data.reverse.dropWhile (fun c => c = '/')
    if cs = [] then "/"
    else String.mk ((cs.takeWhile (fun c => c ≠ '/')).reverse)

/-- Model of Go `filepath.Abs` under working directory `cwd` (`os.Getwd` is
assumed to succeed, which is the only behaviour the engine exercises). -/
def goAbs (cwd p : String) : String :=
  if isAbs p then goClean p else goJoin cwd p

/-! ## Data model: `DepRef`, `RawSpec`, `MetaHeader`, `SearchMap` (meta.go) -/

/-- `DepRef`: a declared dependency reference. -/
structure DepRef where
  adapter : String := ""
  name : String := ""
  args : List String := []
  deriving DecidableEq, Repr, Inhabited

/-- The `spec` payload of a config document.  In the source it is raw JSON
bytes (`json.RawMessage`); the model keeps the three observationally distinct
shapes: absent/zero-length bytes, non-empty bytes that fail to decode, and
non-empty bytes that decode to a JSON object (a key/value list, later keys
shadowing earlier ones). -/
inductive RawSpec where
  | empty : RawSpec
  | bad : RawSpec
  | obj : List (String × String) → RawSpec
  deriving DecidableEq, Repr, Inhabited

/-- `len(rawSpec) > 0` on the byte-level payload. -/
def RawSpec.nonempty : RawSpec → Bool
  | .empty => false
  | .bad => true
  | .obj _ => true

/-- `MetaHeader`: the decoded form of one config document.  The working
context field is called `Context` in `meta.go` and `WorkDir` in the newest
`registry.go` revision; it is one and the same field of the decoded header,
here `context`.  `dependencies` is `Option`-wrapped to keep Go's nil map
distinguishable from an empty one, as `mergeDeps` distinguishes them. -/
structure MetaHeader where
  name : String := ""
  apiVersion : String := ""
  adapter : String := ""
  dependencies : Option (List (String × DepRef)) := none
  rawSpec : RawSpec := .empty
  context : String := ""
  deriving DecidableEq, Repr, Inhabited

/-- Error taxonomy of the engine.  Wrapping constructors mirror the
`fmt.Errorf` context the source attaches. -/
inductive Err where
  | noSearchMap : Err
  | unknownAdapter : String → Err
  | notExist : String → Err
  | readNotExist : String → Err
  | ambiguous : String → List String → Err
  | decodeFile : String → Err
  | loadFailed : String → Err → Err
  | itemLoadFailed : String → String → Err → Err
  | decodeSpec : String → Err
  | depFailed : String → Err → Err
  | fieldNotFound : String → Err
  | fieldNotSettable : String → Err
  | notAssignable : String → Err
  | depResolution : String → Err → Err
  | validating : String → Err → Err
  | missingRequired : String → Err
  | hydrate : String → Err
  | loadAllFailed : String → Err → Err
  | fuel : Err
  deriving DecidableEq, Repr

/-- `errors.Is(err, os.ErrNotExist)`: true for the bare `os.ErrNotExist`
`Resolve` returns and for the `%w`-wrapped `ENOENT` of a vanished file. -/
def Err.isNotExist : Err → Bool
  | .notExist _ => true
  | .readNotExist _ => true
  | _ => false

deriving instance DecidableEq for Except

/-- The two lookup tables built from a config root.  `root` is retained as in
the source but unused after construction. -/
structure SearchMap where
  root : String := ""
  short : List (String × List String) := []
  full : List (String × String) := []
  deriving DecidableEq, Repr, Inhabited

/-- What the file system holds at a path when the loader reads it: the file
may have vanished after indexing (`absent`, an `ENOENT` read error), may hold
bytes that fail to decode as a header (`bad`), or decodes to a header. -/
inductive FileData where
  | absent : FileData
  | bad : FileData
  | good : MetaHeader → FileData
  deriving DecidableEq, Repr, Inhabited

/-- `SearchMap.Resolve` (meta.go): full-key lookup first; otherwise the
short-key list decides between not-found, a unique hit, and ambiguity. -/
def SearchMap.Resolve (sm : SearchMap) (name : String) : Except Err String :=
  match alookup sm.full name with
  | some p => .ok p
  | none =>
    match alookup sm.short name with
    | none => .error (.notExist name)
    | some [] => .error (.notExist name)
    | some [p] => .ok p
    | some (p :: q :: rest) => .error (.ambiguous name (p :: q :: rest))

/-- `SearchMap.Load` (meta.go): resolve, read, decode, default the name to
the file's base name, apply the `CORE_CONTEXT_MAP` override, and make a
relative context absolute against the config file's own directory.
`verbose` only controls logging in the source and is carried for fidelity. -/
def SearchMap.Load (sm : SearchMap) (fs : String → FileData)
    (cm : List (String × String)) (cwd : String) (name : String)
    (verbose : Bool) : Except Err MetaHeader :=
  match sm.Resolve name with
  | .error e => .error e
  | .ok p =>
    let _ := verbose
    match fs p with
    | .absent => .error (.readNotExist p)
    | .bad => .error (.decodeFile p)
    | .good h =>
      let nm := if trimSpace h.name = "" then trimSuffix (goBase p) ".json" else h.name
      let ctx0 :=
        match alookup cm nm with
        | some envCtx => goClean envCtx
        | none => h.context
      let ctx :=
        if ctx0 ≠ "" ∧ ¬ isAbs ctx0 then
          goClean (goAbs cwd (goJoin (goDir p) ctx0))
        else ctx0
      .ok { h with name := nm, context := ctx }

/-- The loop body of `SearchMap.LoadAll`: load each key in order, skip
not-exist errors, abort on any other error, and keep headers matching the
(case-insensitively compared) adapter-id filter. -/
def loadAllGo (sm : SearchMap) (fs : String → FileData)
    (cm : List (String × String)) (cwd : String) (adapterID : String) :
    List String → Except Err (List MetaHeader)
  | [] => .ok []
  | k :: rest =>
    match sm.Load fs cm cwd k false with
    | .error e =>
      if e.isNotExist then loadAllGo sm fs cm cwd adapterID rest
      else .error (.loadAllFailed k e)
    | .ok m =>
      match loadAllGo sm fs cm cwd adapterID rest with
      | .error e => .error e
      | .ok tail =>
        if adapterID ≠ "" ∧ ¬ equalFold m.adapter adapterID then .ok tail
        else .ok (m :: tail)

/-- `SearchMap.LoadAll` (meta.go): collect the full-index keys, sort them for
determinism, and run the loading loop. -/
def SearchMap.LoadAll (sm : SearchMap) (fs : String → FileData)
    (cm : List (String × String)) (cwd : String) (adapterID : String) :
    Except Err (List MetaHeader) :=
  loadAllGo sm fs cm cwd adapterID (sortStrings (sm.full.map Prod.fst))

/-! ## Dependency resolver data (dep.go) and registry environment/state -/

/-- ASCII upper-casing of one character. -/
def toUpperChar (c : Char) : Char :=
  if 'a' ≤ c ∧ c ≤ 'z' then Char.ofNat (c.toNat - 32) else c

/-- Capitalize the first character of a word. -/
def capWord : List Char → List Char
  | [] => []
  | c :: cs => toUpperChar c :: cs

/-- Modelled from the spec: the external `words.ToCapWords` function (package
`github.com/bartdeboer/words`, not part of this repository) which derives "a
struct field name from the dependency key by a fixed word-capitalization
rule"; modelled as splitting the key at ASCII separators and capitalizing
each word.  On keys that already are a single capitalized word — the only
keys the theorems below evaluate it on — any such rule is the identity. -/
def toCapWords (s : String) : String :=
  String.mk ((((splitCharsOn '-' s.data).flatMap (splitCharsOn '_')).map capWord).foldr
    (· ++ ·) [])

/-- One struct field of an adapter, as reflection sees it: its name, whether
it is exported (`PkgPath == ""`, which also decides `CanSet`), the raw
`core:"..."` tag (`""` when absent), and the assignability predicate of the
field's type (`reflect.Type.AssignableTo`, by the dependency's adapter id). -/
structure FieldSpec where
  name : String
  exported : Bool := true
  tag : String := ""
  accepts : String → Bool := fun _ => true

/-- What a registered zero factory's instance looks like to the registry's
structural capability probes: which optional interfaces it implements,
its struct fields, and whether its `Hydrate` hook succeeds. -/
structure FactorySpec where
  configurable : Bool := false
  itemConfigurable : Bool := false
  workDirSettable : Bool := false
  depender : Bool := false
  hydrater : Bool := false
  hydrateOk : Bool := true
  fields : List FieldSpec := []

/-- The immutable surroundings of a run: the factory table (keyed by
lower-cased adapter id, as `Register` stores it), the installed `SearchMap`,
the file system contents, the `CORE_CONTEXT_MAP` override table, and the
process working directory. -/
structure Env where
  factories : List (String × FactorySpec) := []
  searchMap : Option SearchMap := none
  fs : String → FileData := fun _ => .absent
  contextMap : List (String × String) := []
  cwd : String := "/"

/-- The mutable data of one adapter instance: its adapter id, the config
struct its `ConfigPtr`/`ItemConfigPtr` point at (a field/value map; this
models an adapter that exposes one underlying target for both, as the
overlay claim presumes), its dependency struct fields, the `Depender`
name-keyed side table, and its working directory. -/
structure InstData where
  adapterId : String := ""
  cfg : List (String × String) := []
  fields : List (String × Option Nat) := []
  depMap : List (String × Nat) := []
  workDir : String := ""
  deriving DecidableEq, Repr, Inhabited

/-- The registry's mutable state: the allocation counter for instance ids,
the live instances, the instance cache `adapters : cacheKey → instance`,
and the log of `Hydrate` invocations (the model's observable for hydration
side effects). -/
structure RegState where
  nextId : Nat := 0
  instances : List (Nat × InstData) := []
  adapters : List (String × Nat) := []
  hydrates : List Nat := []
  deriving DecidableEq, Repr, Inhabited

/-- The pristine state of a fresh registry. -/
def regState0 : RegState := {}

/-- The data of instance `aid` (total; unallocated ids read as the zero
instance, which no reachable execution does). -/
def getInst (s : RegState) (aid : Nat) : InstData :=
  (alookup s.instances aid).getD default

/-- Mutate the data of instance `aid` in place (a Go pointer write). -/
def updInst (s : RegState) (aid : Nat) (f : InstData → InstData) : RegState :=
  { s with instances := s.instances.map (fun p => if p.1 = aid then (p.1, f p.2) else p) }

/-- `target.AddDependency(name, dep)` of the `Depender` capability. -/
def addDependency (s : RegState) (aid : Nat) (name : String) (dep : Nat) : RegState :=
  updInst s aid (fun d => { d with depMap := updKey d.depMap name dep })

/-- `field.Set(depVal)`: assign a dependency instance into a struct field. -/
def setField (s : RegState) (aid : Nat) (fieldName : String) (dep : Nat) : RegState :=
  updInst s aid (fun d => { d with fields := updKey d.fields fieldName (some dep) })

/-- The current value of a dependency struct field (`none` = Go nil). -/
def getField (s : RegState) (aid : Nat) (fieldName : String) : Option Nat :=
  (alookup (getInst s aid).fields fieldName).getD none

/-- The adapter id of a live instance. -/
def adapterIdOf (s : RegState) (aid : Nat) : String :=
  (getInst s aid).adapterId

/-! ## dep.go: inference, merging, validation -/

/-- The adapter id a `core` tag infers (`findStructDeps`' switch): with two
or more comma-separated tokens the first token (trimmed) is the adapter id,
even if a later token is "required"; a single token is the adapter id unless
it case-folds to "required".  `""` means no adapter id is inferred. -/
def tagDepAdapter (tag : String) : String :=
  match splitComma tag with
  | [] => ""
  | [p] => let q := trimSpace p; if equalFold q "required" then "" else q
  | p :: _ :: _ => trimSpace p

/-- `findStructDeps` (dep.go): walk the exported fields; a non-empty
(trimmed) `core` tag that infers an adapter id contributes a `DepRef` keyed
by the field name. -/
def findStructDeps : List FieldSpec → List (String × DepRef)
  | [] => []
  | sf :: rest =>
    if ¬ sf.exported then findStructDeps rest
    else
      let tag := trimSpace sf.tag
      if tag = "" then findStructDeps rest
      else
        let adapterID := tagDepAdapter tag
        if adapterID = "" then findStructDeps rest
        else (sf.name, { adapter := adapterID }) :: findStructDeps rest

/-- `mergeDeps` (dep.go): nil when both inputs are nil; otherwise the
config entries first (they win) and inferred entries fill the missing keys. -/
def mergeDeps (config inferred : Option (List (String × DepRef))) :
    Option (List (String × DepRef)) :=
  match config, inferred with
  | none, none => none
  | _, _ =>
    some ((inferred.getD []).foldl
      (fun out kv => if (alookup out kv.1).isSome then out else out ++ [kv])
      (config.getD []))

/-- `validateRequiredDeps` (dep.go): the first field whose `core` tag is
exactly the string "required" and whose value is still nil is a fatal
missing-required error naming that field. -/
def validateRequiredDeps (fields : List FieldSpec) (vals : List (String × Option Nat)) :
    Except Err Unit :=
  match fields with
  | [] => .ok ()
  | f :: rest =>
    if f.tag = "required" ∧ (alookup vals f.name).getD none = none then
      .error (.missingRequired f.name)
    else validateRequiredDeps rest vals

/-! ## registry.go: keyGen, applyConfig, resolveWorkDir -/

/-- The item-name component of the cache key: present exactly when an item
header was resolved and its name is non-blank. -/
def itemNamePart : Option MetaHeader → Option String
  | none => none
  | some it => if it.name ≠ "" then some it.name else none

/-- `keyGen` (registry.go): lower-cased adapter id, a `__`-joined item-name
component, and — only when the zero instance opts into working contexts and
the resolved context is non-empty — a 64-bit FNV-1a hash suffix of
`key ++ 0x00 ++ contextPath`, rendered `%016x`. -/
def keyGen (zero : FactorySpec) (adapterID : String) (item : Option MetaHeader)
    (contextPath : String) : String :=
  let key := toLower adapterID
  let key :=
    match itemNamePart item with
    | some nm => key ++ "__" ++ nm
    | none => key
  if ¬ zero.workDirSettable ∨ contextPath = "" then key
  else key ++ "__" ++ hex16 (fnv64a (strBytes key ++ 0 :: strBytes contextPath))

/-- `resolveWorkDir` (registry.go): the caller's default, overridden by each
successive header that carries a non-empty working context. -/
def resolveWorkDir (defaultWorkDir : String) (metas : List (Option MetaHeader)) : String :=
  metas.foldl
    (fun wd m =>
      match m with
      | none => wd
      | some mh => if mh.context = "" then wd else mh.context)
    defaultWorkDir

/-- Decode a JSON object payload into a config target (`json.Unmarshal` into
an existing struct: fields named in the payload are overwritten — later
duplicates last — and all others keep their current value). -/
def decodeObj (kvs : List (String × String)) (t : List (String × String)) :
    List (String × String) :=
  kvs.foldl (fun t kv => updKey t kv.1 kv.2) t

/-- `applyConfig` (registry.go): decode the adapter-level payload into the
`Configurable` target, then the item-level payload into the
`ItemConfigurable` target — here one and the same underlying struct —
each step skipped when the header is absent, its payload empty or the
capability missing, and fatal when a non-empty payload fails to decode. -/
def applyConfig (zero : FactorySpec) (adapterID : String)
    (meta itemMeta : Option MetaHeader) (cfg : List (String × String)) :
    Except Err (List (String × String)) :=
  let step1 : Except Err (List (String × String)) :=
    match meta with
    | none => .ok cfg
    | some m =>
      match m.rawSpec with
      | .empty => .ok cfg
      | .bad => if zero.configurable then .error (.decodeSpec adapterID) else .ok cfg
      | .obj kvs => .ok (if zero.configurable then decodeObj kvs cfg else cfg)
  match step1 with
  | .error e => .error e
  | .ok cfg1 =>
    match itemMeta with
    | none => .ok cfg1
    | some im =>
      match im.rawSpec with
      | .empty => .ok cfg1
      | .bad => if zero.itemConfigurable then .error (.decodeSpec im.name) else .ok cfg1
      | .obj kvs => .ok (if zero.itemConfigurable then decodeObj kvs cfg1 else cfg1)

/-! ## The construction lifecycle (registry.go `newAdapterWithContext`,
dep.go `applyDeps`/`resolveMapDeps`/`resolveStructDeps`)

The source's recursive knot — dependency resolution calls back into
`newAdapterWithContext` — is tied through an explicit `construct` parameter,
and `newAdapterWithContext` recurses on a fuel counter: the source performs
unbounded recursion and can overflow the stack on a dependency cycle (a
documented gap), which the model renders as running out of fuel. -/

/-- The type of the recursive constructor the dependency helpers call. -/
abbrev Construct := RegState → String → String → List String → Except Err Nat × RegState

/-- `resolveMapDeps` (dep.go): construct each dependency — the declared name,
when present, becomes the first positional argument — propagating the
parent's resolved context, and register it in the `Depender` side table. -/
def resolveMapDepsGo (construct : Construct) (parentWorkDir : String) (aid : Nat) :
    RegState → List (String × DepRef) → Except Err Unit × RegState
  | s, [] => (.ok (), s)
  | s, (name, ref) :: rest =>
    let depArgs := (if ref.name ≠ "" then [ref.name] else []) ++ ref.args
    match construct s ref.adapter parentWorkDir depArgs with
    | (.error e, s') => (.error (.depFailed name e), s')
    | (.ok dep, s') =>
      resolveMapDepsGo construct parentWorkDir aid (addDependency s' aid name dep) rest

/-- `v.FieldByName(name)`: the first struct field with the given name. -/
def findField : List FieldSpec → String → Option FieldSpec
  | [], _ => none
  | f :: rest, n => if f.name = n then some f else findField rest n

/-- `resolveStructDeps` (dep.go): derive the field name by the
word-capitalization rule, require the field to exist and be settable,
construct the dependency with the parent's resolved context, require
assignability, and set the field. -/
def resolveStructDepsGo (construct : Construct) (caps : FactorySpec)
    (parentWorkDir : String) (aid : Nat) :
    RegState → List (String × DepRef) → Except Err Unit × RegState
  | s, [] => (.ok (), s)
  | s, (mapName, ref) :: rest =>
    let fieldName := toCapWords mapName
    match findField caps.fields fieldName with
    | none => (.error (.fieldNotFound fieldName), s)
    | some fspec =>
      if ¬ fspec.exported then (.error (.fieldNotSettable fieldName), s)
      else
        let childArgs := (if ref.name ≠ "" then [ref.name] else []) ++ ref.args
        match construct s ref.adapter parentWorkDir childArgs with
        | (.error e, s') => (.error (.depFailed fieldName e), s')
        | (.ok dep, s') =>
          if ¬ fspec.accepts (adapterIdOf s' dep) then (.error (.notAssignable fieldName), s')
          else
            resolveStructDepsGo construct caps parentWorkDir aid
              (setField s' aid fieldName dep) rest

/-- `applyDeps` (dep.go): infer dependencies from the struct tags, merge the
header's declared map over them (declared wins), and inject the merged map —
through the `Depender` side table when the capability is present, and always
through struct fields. -/
def applyDepsGo (construct : Construct) (caps : FactorySpec) (parentWorkDir : String)
    (meta : Option MetaHeader) (s : RegState) (aid : Nat) : Except Err Unit × RegState :=
  let inferred := findStructDeps caps.fields
  let cfg :=
    match meta with
    | none => none
    | some m => m.dependencies
  match mergeDeps cfg (some inferred) with
  | none => (.ok (), s)
  | some deps =>
    match (if caps.depender then resolveMapDepsGo construct parentWorkDir aid s deps
           else (.ok (), s)) with
    | (.error e, s1) => (.error e, s1)
    | (.ok _, s1) => resolveStructDepsGo construct caps parentWorkDir aid s1 deps

/-- The registry's tolerated load: absence of a config (`os.ErrNotExist`)
is not an error, any other load failure is. -/
def loadTolerant (sm : SearchMap) (env : Env) (name : String) :
    Except Err (Option MetaHeader) :=
  match sm.Load env.fs env.contextMap env.cwd name true with
  | .ok h => .ok (some h)
  | .error e => if e.isNotExist then .ok none else .error e

/-- The pure prefix of `newAdapterWithContext` (registry.go), everything
before the cache probe: require a `SearchMap`, look the factory up by
lower-cased id, load the optional adapter-level header, load the optional
item-level header when the zero instance is `ItemConfigurable` and a first
positional argument was supplied, resolve the working context, and compute
the cache key.  None of this touches the registry state. -/
def prep (env : Env) (adapterID defaultWorkDir : String) (args : List String) :
    Except Err (FactorySpec × Option MetaHeader × Option MetaHeader × String × String) :=
  match env.searchMap with
  | none => .error .noSearchMap
  | some sm =>
    match alookup env.factories (toLower adapterID) with
    | none => .error (.unknownAdapter adapterID)
    | some zero =>
      match loadTolerant sm env adapterID with
      | .error e => .error (.loadFailed adapterID e)
      | .ok meta =>
        match
          (match args with
           | [] => .ok none
           | configPath :: _ =>
             if zero.itemConfigurable then
               match loadTolerant sm env configPath with
               | .error e => .error (.itemLoadFailed configPath adapterID e)
               | .ok im => .ok im
             else .ok none :
             Except Err (Option MetaHeader))
        with
        | .error e => .error e
        | .ok itemMeta =>
          let resolvedWorkDir := resolveWorkDir defaultWorkDir [meta, itemMeta]
          .ok (zero, meta, itemMeta, resolvedWorkDir,
               keyGen zero adapterID itemMeta resolvedWorkDir)

/-- The tail of the construction lifecycle after configuration: the two
dependency passes (adapter-level header first, then item-level header),
required validation, and the hydration hook; every failure returns the
current state unchanged. -/
def constructDeps (construct : Construct) (zero : FactorySpec) (adapterID rwd : String)
    (meta itemMeta : Option MetaHeader) (aid : Nat) (s : RegState) :
    Except Err Nat × RegState :=
  match applyDepsGo construct zero rwd meta s aid with
  | (.error e, s') => (.error (.depResolution adapterID e), s')
  | (.ok _, s1) =>
    match applyDepsGo construct zero rwd itemMeta s1 aid with
    | (.error e, s') => (.error (.depResolution adapterID e), s')
    | (.ok _, s2) =>
      match validateRequiredDeps zero.fields (getInst s2 aid).fields with
      | .error e => (.error (.validating adapterID e), s2)
      | .ok _ =>
        if zero.hydrater then
          let s3 := { s2 with hydrates := s2.hydrates ++ [aid] }
          if zero.hydrateOk then (.ok aid, s3)
          else (.error (.hydrate adapterID), s3)
        else (.ok aid, s2)

/-- The construction lifecycle on the pre-registered instance `aid`:
configs (adapter-level payload, then item-level payload, into the same
underlying target), the optional `SetWorkDir`, then `constructDeps`. -/
def constructGo (construct : Construct) (zero : FactorySpec) (adapterID rwd : String)
    (meta itemMeta : Option MetaHeader) (aid : Nat) (s : RegState) :
    Except Err Nat × RegState :=
  match applyConfig zero adapterID meta itemMeta (getInst s aid).cfg with
  | .error e => (.error e, s)
  | .ok cfg' =>
    let s := updInst s aid (fun d => { d with cfg := cfg' })
    let s :=
      if zero.workDirSettable ∧ rwd ≠ "" then
        updInst s aid (fun d => { d with workDir := rwd })
      else s
    constructDeps construct zero adapterID rwd meta itemMeta aid s

/-- The cache-miss allocation: create the zero instance (fresh id, zero
fields) and store it into the instance cache *before* any configuration. -/
def allocState (zero : FactorySpec) (adapterID regKey : String) (s : RegState) : RegState :=
  { s with
    nextId := s.nextId + 1,
    instances :=
      (s.nextId,
        { adapterId := adapterID,
          fields := zero.fields.map (fun f => (f.name, none)) }) :: s.instances,
    adapters := (regKey, s.nextId) :: s.adapters }

/-- The miss branch of `newAdapterWithContext`: pre-register the raw zero
instance in the cache, then run the construction lifecycle on it; every
failure leaves the current state (and hence the pre-registered cache entry)
in place. -/
def constructNew (construct : Construct) (zero : FactorySpec)
    (adapterID regKey resolvedWorkDir : String) (meta itemMeta : Option MetaHeader)
    (s : RegState) : Except Err Nat × RegState :=
  constructGo construct zero adapterID resolvedWorkDir meta itemMeta s.nextId
    (allocState zero adapterID regKey s)

/-- `newAdapterWithContext` (registry.go): the pure prefix, then the cache
probe — a hit returns the existing instance with no further effect — and on
a miss the construction lifecycle, with one unit of fuel consumed for each
level of recursive dependency construction. -/
def newAdapterWithContext (env : Env) :
    Nat → RegState → String → String → List String → Except Err Nat × RegState
  | 0, s, _, _, _ => (.error .fuel, s)
  | n + 1, s, adapterID, defaultWorkDir, args =>
    match prep env adapterID defaultWorkDir args with
    | .error e => (.error e, s)
    | .ok (zero, meta, itemMeta, resolvedWorkDir, regKey) =>
      match alookup s.adapters regKey with
      | some existing => (.ok existing, s)
      | none =>
        constructNew (newAdapterWithContext env n) zero adapterID regKey
          resolvedWorkDir meta itemMeta s

/-- `Registry.NewAdapter` (registry.go): construction with an empty default
working context. -/
def NewAdapter (env : Env) (fuel : Nat) (s : RegState) (adapterID : String)
    (args : List String) : Except Err Nat × RegState :=
  newAdapterWithContext env fuel s adapterID "" args

/-- The registry-state invariant every reachable state satisfies: cached
instance ids are allocated, the cache is injective (each instance is cached
under exactly one key), and hydration was only ever invoked on allocated
instances. -/
def StateWF (s : RegState) : Prop :=
  (∀ k a, alookup s.adapters k = some a → a < s.nextId) ∧
  (∀ k k' a, alookup s.adapters k = some a → alookup s.adapters k' = some a → k = k') ∧
  (∀ i, i ∈ s.hydrates → i < s.nextId)

/-- How one engine step extends the registry state: cache entries persist,
the allocation counter grows, well-formedness is preserved, pre-existing
instance data is untouched, and the hydration count of any pre-existing
instance is unchanged. -/
structure Step (s s' : RegState) : Prop where
  adapters : ∀ k a, alookup s.adapters k = some a → alookup s'.adapters k = some a
  le : s.nextId ≤ s'.nextId
  wfp : StateWF s → StateWF s'
  inst : ∀ i, i < s.nextId → alookup s'.instances i = alookup s.instances i
  hydrCount : ∀ i, i < s.nextId → List.count i s'.hydrates = List.count i s.hydrates

/-- The helper variant of `Step` for the dependency-injection loops, which
additionally mutate the parent instance `aid`. -/
structure StepH (aid : Nat) (s s' : RegState) : Prop where
  adapters : ∀ k a, alookup s.adapters k = some a → alookup s'.adapters k = some a
  le : s.nextId ≤ s'.nextId
  wfp : StateWF s → StateWF s'
  inst : ∀ i, i < s.nextId → i ≠ aid → alookup s'.instances i = alookup s.instances i
  hydrCount : ∀ i, i < s.nextId → List.count i s'.hydrates = List.count i s.hydrates

/-- The construction-level variant of `Step`: the lifecycle running on
instance `aid` additionally mutates `aid`'s data and hydrates `aid` itself,
so preservation is claimed only away from `aid`. -/
structure StepC (aid : Nat) (s s' : RegState) : Prop where
  adapters : ∀ k a, alookup s.adapters k = some a → alookup s'.adapters k = some a
  le : s.nextId ≤ s'.nextId
  wfp : StateWF s → StateWF s'
  inst : ∀ i, i < s.nextId → i ≠ aid → alookup s'.instances i = alookup s.instances i
  hydrCount : ∀ i, i < s.nextId → i ≠ aid →
    List.count i s'.hydrates = List.count i s.hydrates

/-- The contract of the recursive constructor passed to the dependency
helpers: every call is an engine step. -/
def ConstructStep (construct : Construct) : Prop :=
  ∀ s id wd args, Step s ((construct s id wd args).2)

/-- Witness environment for C1: one registered hydratable adapter, an empty
config tree. -/
def zC1 : FactorySpec := { hydrater := true }

def envC1 : Env := { factories := [("alpha", zC1)], searchMap := some {} }

def s1C1 : RegState :=
  { nextId := 1, instances := [(0, { adapterId := "Alpha" })],
    adapters := [("alpha", 0)], hydrates := [0] }

/-- Witness environment for C4: one adapter whose hydration hook fails. -/
def zC4 : FactorySpec := { hydrater := true, hydrateOk := false }

def envC4 : Env := { factories := [("boom", zC4)], searchMap := some {} }

def s1C4 : RegState :=
  { nextId := 1, instances := [(0, { adapterId := "boom" })],
    adapters := [("boom", 0)], hydrates := [0] }

/-- Witness environment for C2: one context-aware (work-dir settable)
adapter, an empty config tree. -/
def zC2 : FactorySpec := { workDirSettable := true }

def envC2 : Env := { factories := [("cad", zC2)], searchMap := some {} }

/-- The cache key of a C2 request with resolved context `c`. -/
def keyC2 (c : String) : String := keyGen zC2 "cad" none c

/-- The state after one fresh C2 construction with resolved context `c`. -/
def s1C2 (c : String) : RegState :=
  { nextId := 1,
    instances := [(0, { adapterId := "cad", workDir := c })],
    adapters := [(keyC2 c, 0)], hydrates := [] }

/-- The context strings used in the C2 counterexample: `n+1` letters `a`. -/
def ctxOf (n : Nat) : String := String.mk (List.replicate (n + 1) 'a')

/-- The state after the two C2 witness constructions with contexts `/x`
then `/y`. -/
def s2C2 : RegState :=
  { nextId := 2,
    instances := [(1, { adapterId := "cad", workDir := "/y" }),
                  (0, { adapterId := "cad", workDir := "/x" })],
    adapters := [(keyC2 "/y", 1), (keyC2 "/x", 0)], hydrates := [] }

/-- Witness data for C3: the spec's own example payloads. -/
def zC3 : FactorySpec := { configurable := true, itemConfigurable := true }

def mC3 : MetaHeader := { name := "adp", rawSpec := .obj [("foo", "global-foo")] }

def imC3 : MetaHeader :=
  { name := "inst1", rawSpec := .obj [("foo", "item-foo"), ("label", "instance-1")] }

/-- The dependency struct fields of instance `aid`. -/
def fieldsOf (s : RegState) (aid : Nat) : List (String × Option Nat) :=
  (getInst s aid).fields

/-- One step of `mergeDeps`' fill loop. -/
def mergeFill (out : List (String × DepRef)) (kv : String × DepRef) :
    List (String × DepRef) :=
  if (alookup out kv.1).isSome then out else out ++ [kv]

/-- C6 counterexample environment: a field tagged `core:",required"` — a
multi-token tag whose later token is the word "required" and whose first
token is empty. -/
def zC6x : FactorySpec := { fields := [{ name := "Dep", tag := ",required" }] }

def envC6x : Env := { factories := [("iq", zC6x)], searchMap := some {} }

/-- C6 witness environment: field `Req` is mandatory via the single-token
tag and filled by a declared dependency; field `Provider` carries a
multi-token tag with a "required" later token and is filled by inference. -/
def zC6 : FactorySpec :=
  { fields := [{ name := "Req", tag := "required" },
               { name := "Provider", tag := "dep-x,required" }] }

def envC6 : Env :=
  { factories := [("par2", zC6), ("dep-x", {})],
    searchMap := some ⟨"", [], [("par2", "/r/par2.json")]⟩,
    fs := fun p =>
      if p = "/r/par2.json" then
        .good { name := "par2",
                dependencies := some [("Req", { adapter := "dep-x" })] }
      else .absent }

/-- C5 counterexample environment: adapter `par` has field `Provider` tagged
`core:"dep-a"` (inferring `dep-a`), while its adapter-level config declares
the same key as `dep-b`. -/
def zC5 : FactorySpec := { fields := [{ name := "Provider", tag := "dep-a" }] }

def envC5 : Env :=
  { factories := [("par", zC5), ("dep-a", {}), ("dep-b", {})],
    searchMap := some ⟨"", [], [("par", "/r/par.json")]⟩,
    fs := fun p =>
      if p = "/r/par.json" then
        .good { name := "par",
                dependencies := some [("Provider", { adapter := "dep-b" })] }
      else .absent }

/-! ## C7: Resolve priority and short-key cardinality -/

def smC7 : SearchMap :=
  { root := "/r",
    short := [("dev", ["/r/env/dev.json", "/r/other/dev.json"]),
              ("one", ["/r/one.json"]),
              ("zero", [])],
    full := [("env/dev", "/r/env/dev.json")] }

/-! ## C8: path algebra for context anchoring -/

/-- A path segment that `filepath.Clean` keeps verbatim in a rooted path:
non-empty, not `.` or `..`, and separator-free. -/
def goodSeg (seg : List Char) : Prop :=
  seg ≠ [] ∧ seg ≠ ['.'] ∧ seg ≠ ['.', '.'] ∧ '/' ∉ seg

def hC8 : MetaHeader := { adapter := "db", context := "../ctx" }

def hC8a : MetaHeader := { name := "named", context := "/abs/ctx" }

def smC8 : SearchMap :=
  { full := [("env/it", "/r/env/it.json"), ("env/abs", "/r/env/abs.json")] }

def fsC8 : String → FileData := fun q =>
  if q = "/r/env/it.json" then .good hC8
  else if q = "/r/env/abs.json" then .good hC8a
  else .absent

/-- Whether loading one key either succeeds or fails with the not-exist class
of error the batch loader tolerates. -/
def noFailLoad (sm : SearchMap) (fs : String → FileData)
    (cm : List (String × String)) (cwd : String) (k : String) : Bool :=
  match sm.Load fs cm cwd k false with
  | .error e => e.isNotExist
  | .ok _ => true

def hK1 : MetaHeader := { name := "k1", adapter := "postgres" }

def hK3 : MetaHeader := { name := "k3", adapter := "MySQL" }

def smC10 : SearchMap :=
  { full := [("b/k2", "/r/b/k2.json"), ("a/k1", "/r/a/k1.json"),
             ("c/k3", "/r/c/k3.json")] }

def smC10p : SearchMap :=
  { full := [("a/k1", "/r/a/k1.json"), ("c/k3", "/r/c/k3.json"),
             ("b/k2", "/r/b/k2.json")] }

def fsC10 : String → FileData := fun q =>
  if q = "/r/a/k1.json" then .good hK1
  else if q = "/r/c/k3.json" then .good hK3
  else .absent

/-! ## Map and state lemmas -/

theorem alookup_filter_ne {κ α : Type} [DecidableEq κ] (l : List (κ × α)) (k k' : κ)
    (h : k ≠ k') : alookup (l.filter (fun p => p.1 ≠ k)) k' = alookup l k' := by
  induction l with
  | nil => rfl
  | cons p rest ih =>
    obtain ⟨pk, pv⟩ := p
    by_cases hpk : pk = k
    · subst hpk
      have hki : ¬ pk = k' := h
      simp only [List.filter_cons, alookup, if_neg hki]
      simp only [ne_eq, decide_not, not_true_eq_false]
      simpa using ih
    · by_cases hki : pk = k'
      · subst hki
        have h2 : ¬ pk = k := hpk
        simp [List.filter_cons, alookup, h2]
      · simp only [List.filter_cons, alookup]
        simp only [ne_eq, decide_not, hpk]
        simpa [alookup, hki] using ih

theorem alookup_updKey {κ α : Type} [DecidableEq κ] (l : List (κ × α)) (k k' : κ) (v : α) :
    alookup (updKey l k v) k' = if k = k' then some v else alookup l k' := by
  unfold updKey
  by_cases h : k = k'
  · simp [alookup, h]
  · simp only [alookup, if_neg h]
    exact alookup_filter_ne l k k' h

theorem alookup_mapUpd {α : Type} (l : List (Nat × α)) (aid : Nat) (f : α → α) (i : Nat) :
    alookup (l.map (fun p => if p.1 = aid then (p.1, f p.2) else p)) i =
      if aid = i then (alookup l i).map f else alookup l i := by
  induction l with
  | nil => by_cases h : aid = i <;> simp [alookup, h]
  | cons p rest ih =>
    obtain ⟨pk, pv⟩ := p
    have hhead : (if (pk, pv).1 = aid then ((pk, pv).1, f (pk, pv).2) else (pk, pv)) =
        (pk, if pk = aid then f pv else pv) := by
      by_cases hh : pk = aid <;> simp [hh]
    rw [List.map_cons, hhead]
    by_cases hpi : pk = i
    · subst hpi
      by_cases hpk : pk = aid
      · subst hpk
        simp [alookup]
      · have haid : ¬ aid = pk := fun hc => hpk hc.symm
        simp [alookup, hpk, haid]
    · simp only [alookup, if_neg hpi]
      exact ih

theorem alookup_updInst (s : RegState) (aid : Nat) (f : InstData → InstData) (i : Nat) :
    alookup (updInst s aid f).instances i =
      if aid = i then (alookup s.instances i).map f else alookup s.instances i := by
  unfold updInst
  exact alookup_mapUpd s.instances aid f i

theorem updInst_adapters (s : RegState) (aid : Nat) (f : InstData → InstData) :
    (updInst s aid f).adapters = s.adapters := rfl

theorem updInst_nextId (s : RegState) (aid : Nat) (f : InstData → InstData) :
    (updInst s aid f).nextId = s.nextId := rfl

theorem updInst_hydrates (s : RegState) (aid : Nat) (f : InstData → InstData) :
    (updInst s aid f).hydrates = s.hydrates := rfl

theorem stateWF_regState0 : StateWF regState0 := by
  refine ⟨?_, ?_, ?_⟩
  · intro k a h; simp [regState0, alookup] at h
  · intro k k' a h; simp [regState0, alookup] at h
  · intro i h; simp [regState0] at h

theorem Step.refl (s : RegState) : Step s s :=
  ⟨fun _ _ h => h, Nat.le_refl _, id, fun _ _ => Eq.refl _, fun _ _ => Eq.refl _⟩

theorem Step.stepTrans {s1 s2 s3 : RegState} (a : Step s1 s2) (b : Step s2 s3) : Step s1 s3 :=
  ⟨fun k v h => b.adapters k v (a.adapters k v h),
   Nat.le_trans a.le b.le,
   fun w => b.wfp (a.wfp w),
   fun i hi => (b.inst i (Nat.lt_of_lt_of_le hi a.le)).trans (a.inst i hi),
   fun i hi => (b.hydrCount i (Nat.lt_of_lt_of_le hi a.le)).trans (a.hydrCount i hi)⟩

theorem Step.toH {aid : Nat} {s s' : RegState} (a : Step s s') : StepH aid s s' :=
  ⟨a.adapters, a.le, a.wfp, fun i hi _ => a.inst i hi, a.hydrCount⟩

theorem StepH.stepHTrans {aid : Nat} {s1 s2 s3 : RegState}
    (a : StepH aid s1 s2) (b : StepH aid s2 s3) : StepH aid s1 s3 :=
  ⟨fun k v h => b.adapters k v (a.adapters k v h),
   Nat.le_trans a.le b.le,
   fun w => b.wfp (a.wfp w),
   fun i hi hne => (b.inst i (Nat.lt_of_lt_of_le hi a.le) hne).trans (a.inst i hi hne),
   fun i hi => (b.hydrCount i (Nat.lt_of_lt_of_le hi a.le)).trans (a.hydrCount i hi)⟩

theorem stepH_updInst (aid : Nat) (s : RegState) (f : InstData → InstData) :
    StepH aid s (updInst s aid f) := by
  refine ⟨?_, ?_, ?_, ?_, ?_⟩
  · intro k a h; exact h
  · exact Nat.le_refl _
  · intro w; exact w
  · intro i _ hne
    rw [alookup_updInst]
    exact if_neg (fun h => hne h.symm)
  · intro i _; exact Eq.refl _

theorem StepH.toC {aid : Nat} {s s' : RegState} (a : StepH aid s s') : StepC aid s s' :=
  ⟨a.adapters, a.le, a.wfp, a.inst, fun i hi _ => a.hydrCount i hi⟩

theorem StepH.stepHTransC {aid : Nat} {s1 s2 s3 : RegState}
    (a : StepH aid s1 s2) (b : StepC aid s2 s3) : StepC aid s1 s3 :=
  ⟨fun k v h => b.adapters k v (a.adapters k v h),
   Nat.le_trans a.le b.le,
   fun w => b.wfp (a.wfp w),
   fun i hi hne => (b.inst i (Nat.lt_of_lt_of_le hi a.le) hne).trans (a.inst i hi hne),
   fun i hi hne => (b.hydrCount i (Nat.lt_of_lt_of_le hi a.le) hne).trans (a.hydrCount i hi)⟩

theorem resolveMapDepsGo_stepH {construct : Construct} (hc : ConstructStep construct)
    (wd : String) (aid : Nat) :
    ∀ (deps : List (String × DepRef)) (s : RegState),
      StepH aid s ((resolveMapDepsGo construct wd aid s deps).2) := by
  intro deps
  induction deps with
  | nil => intro s; exact (Step.refl s).toH
  | cons kv rest ih =>
    intro s
    obtain ⟨name, ref⟩ := kv
    simp only [resolveMapDepsGo]
    rcases hcr : construct s ref.adapter wd ((if ref.name ≠ "" then [ref.name] else []) ++ ref.args)
      with ⟨r, s2⟩
    have hstep : Step s s2 := by
      have := hc s ref.adapter wd ((if ref.name ≠ "" then [ref.name] else []) ++ ref.args)
      rwa [hcr] at this
    cases r with
    | error e => simp only [hcr]; exact hstep.toH
    | ok dep =>
      simp only [hcr]
      exact (hstep.toH.stepHTrans (stepH_updInst aid s2 _)).stepHTrans (ih _)

theorem resolveStructDepsGo_stepH {construct : Construct} (hc : ConstructStep construct)
    (caps : FactorySpec) (wd : String) (aid : Nat) :
    ∀ (deps : List (String × DepRef)) (s : RegState),
      StepH aid s ((resolveStructDepsGo construct caps wd aid s deps).2) := by
  intro deps
  induction deps with
  | nil => intro s; exact (Step.refl s).toH
  | cons kv rest ih =>
    intro s
    obtain ⟨mapName, ref⟩ := kv
    simp only [resolveStructDepsGo]
    cases hff : findField caps.fields (toCapWords mapName) with
    | none => exact (Step.refl s).toH
    | some fspec =>
      by_cases hexp : fspec.exported
      · simp only [hexp, not_true_eq_false, if_false]
        rcases hcr : construct s ref.adapter wd
          ((if ref.name ≠ "" then [ref.name] else []) ++ ref.args) with ⟨r, s2⟩
        have hstep : Step s s2 := by
          have := hc s ref.adapter wd ((if ref.name ≠ "" then [ref.name] else []) ++ ref.args)
          rwa [hcr] at this
        cases r with
        | error e => exact hstep.toH
        | ok dep =>
          by_cases hacc : fspec.accepts (adapterIdOf s2 dep)
          · simp only [hacc, not_true_eq_false, if_false]
            exact (hstep.toH.stepHTrans (stepH_updInst aid s2 _)).stepHTrans (ih _)
          · simp only [hacc, not_false_eq_true, if_true]
            exact hstep.toH
      · simp only [hexp]
        exact (Step.refl s).toH

theorem applyDepsGo_stepH {construct : Construct} (hc : ConstructStep construct)
    (caps : FactorySpec) (wd : String) (meta : Option MetaHeader) (s : RegState) (aid : Nat) :
    StepH aid s ((applyDepsGo construct caps wd meta s aid).2) := by
  simp only [applyDepsGo]
  cases hmd : mergeDeps (match meta with | none => none | some m => m.dependencies)
      (some (findStructDeps caps.fields)) with
  | none => exact (Step.refl s).toH
  | some deps =>
    by_cases hdep : caps.depender
    · simp only [hdep, if_true]
      rcases hmr : resolveMapDepsGo construct wd aid s deps with ⟨r1, s1⟩
      have h1 : StepH aid s s1 := by
        have := resolveMapDepsGo_stepH hc wd aid deps s
        rwa [hmr] at this
      cases r1 with
      | error e => exact h1
      | ok u =>
        have h2 := resolveStructDepsGo_stepH hc caps wd aid deps s1
        exact h1.stepHTrans h2
    · simp only [hdep, Bool.false_eq_true, if_false]
      exact resolveStructDepsGo_stepH hc caps wd aid deps s

theorem Step.stepTransC {s s' s'' : RegState} {aid : Nat} (a : Step s s')
    (h : s.nextId ≤ aid) (b : StepC aid s' s'') : Step s s'' :=
  ⟨fun k v hk => b.adapters k v (a.adapters k v hk),
   Nat.le_trans a.le b.le,
   fun w => b.wfp (a.wfp w),
   fun i hi =>
     (b.inst i (Nat.lt_of_lt_of_le hi a.le) (Nat.ne_of_lt (Nat.lt_of_lt_of_le hi h))).trans
       (a.inst i hi),
   fun i hi =>
     (b.hydrCount i (Nat.lt_of_lt_of_le hi a.le)
       (Nat.ne_of_lt (Nat.lt_of_lt_of_le hi h))).trans (a.hydrCount i hi)⟩

theorem constructDeps_spec {construct : Construct} (hc : ConstructStep construct)
    (zero : FactorySpec) (adapterID rwd : String) (meta itemMeta : Option MetaHeader)
    (aid : Nat) (s : RegState) (haid : aid < s.nextId) :
    StepC aid s ((constructDeps construct zero adapterID rwd meta itemMeta aid s).2) ∧
    (∀ a, (constructDeps construct zero adapterID rwd meta itemMeta aid s).1 = .ok a →
      a = aid) ∧
    (∀ a, (constructDeps construct zero adapterID rwd meta itemMeta aid s).1 = .ok a →
      zero.hydrater = true →
      List.count aid
          ((constructDeps construct zero adapterID rwd meta itemMeta aid s).2).hydrates =
        List.count aid s.hydrates + 1) := by
  simp only [constructDeps]
  split
  · -- first applyDeps pass failed
    rename_i e s' heq
    have st1 : StepH aid s s' := by
      have := applyDepsGo_stepH hc zero rwd meta s aid
      rwa [heq] at this
    refine ⟨st1.toC, ?_, ?_⟩ <;> exact fun a ha => by cases ha
  · rename_i u sA heq
    have st1 : StepH aid s sA := by
      have := applyDepsGo_stepH hc zero rwd meta s aid
      rwa [heq] at this
    split
    · -- second applyDeps pass failed
      rename_i e s' heq2
      have st2 : StepH aid s s' := by
        have := applyDepsGo_stepH hc zero rwd itemMeta sA aid
        rw [heq2] at this
        exact st1.stepHTrans this
      refine ⟨st2.toC, ?_, ?_⟩ <;> exact fun a ha => by cases ha
    · rename_i u2 sB heq2
      have st2 : StepH aid s sB := by
        have := applyDepsGo_stepH hc zero rwd itemMeta sA aid
        rw [heq2] at this
        exact st1.stepHTrans this
      split
      · -- required validation failed
        refine ⟨st2.toC, ?_, ?_⟩ <;> exact fun a ha => by cases ha
      · -- validated; hydrate
        have sthyd : StepC aid s { sB with hydrates := sB.hydrates ++ [aid] } := by
          refine st2.stepHTransC ⟨fun k a hk => hk, Nat.le_refl _, ?_, fun i _ _ => Eq.refl _, ?_⟩
          · intro w
            refine ⟨w.1, w.2.1, ?_⟩
            intro i hi
            simp only [List.mem_append, List.mem_singleton] at hi
            rcases hi with hi | hi
            · exact w.2.2 i hi
            · subst hi
              exact Nat.lt_of_lt_of_le haid st2.le
          · intro i _ hne
            simp only [List.count_append]
            have hone : List.count i [aid] = 0 := by
              rw [List.count_eq_zero]
              simp only [List.mem_singleton]
              intro hcontra
              exact absurd hcontra.symm (fun h => hne h.symm)
            omega
        by_cases hh : zero.hydrater = true
        · simp only [hh, if_true]
          by_cases hok : zero.hydrateOk = true
          · simp only [hok, if_true]
            refine ⟨sthyd, ?_, ?_⟩
            · intro a ha; cases ha; exact Eq.refl _
            · intro a _ _
              simp only [List.count_append]
              have hcnt : List.count aid sB.hydrates = List.count aid s.hydrates :=
                st2.hydrCount aid haid
              have hone : List.count aid [aid] = 1 := by simp
              omega
          · simp only [hok, Bool.false_eq_true, if_false]
            refine ⟨sthyd, ?_, ?_⟩ <;> exact fun a ha => by cases ha
        · simp only [hh, Bool.false_eq_true, if_false]
          refine ⟨st2.toC, ?_, ?_⟩
          · intro a ha; cases ha; exact Eq.refl _
          · intro a _ hcontra
            exact hcontra.elim

theorem constructGo_spec {construct : Construct} (hc : ConstructStep construct)
    (zero : FactorySpec) (adapterID rwd : String) (meta itemMeta : Option MetaHeader)
    (aid : Nat) (s : RegState) (haid : aid < s.nextId) :
    StepC aid s ((constructGo construct zero adapterID rwd meta itemMeta aid s).2) ∧
    (∀ a, (constructGo construct zero adapterID rwd meta itemMeta aid s).1 = .ok a →
      a = aid) ∧
    (∀ a, (constructGo construct zero adapterID rwd meta itemMeta aid s).1 = .ok a →
      zero.hydrater = true →
      List.count aid
          ((constructGo construct zero adapterID rwd meta itemMeta aid s).2).hydrates =
        List.count aid s.hydrates + 1) := by
  simp only [constructGo]
  split
  · -- config decode failed
    refine ⟨(Step.refl s).toH.toC, ?_, ?_⟩ <;> exact fun a ha => by cases ha
  · rename_i cfg' heq
    by_cases hcond : (zero.workDirSettable = true ∧ rwd ≠ "")
    · rw [if_pos hcond]
      have st1 : StepH aid s
          (updInst (updInst s aid fun d => { d with cfg := cfg' }) aid
            fun d => { d with workDir := rwd }) :=
        (stepH_updInst aid s _).stepHTrans (stepH_updInst aid _ _)
      have hn : aid <
          (updInst (updInst s aid fun d => { d with cfg := cfg' }) aid
            fun d => { d with workDir := rwd }).nextId := haid
      have hcd := constructDeps_spec hc zero adapterID rwd meta itemMeta aid _ hn
      refine ⟨st1.stepHTransC hcd.1, hcd.2.1, ?_⟩
      intro a ha hh
      exact hcd.2.2 a ha hh
    · rw [if_neg hcond]
      have st1 : StepH aid s (updInst s aid fun d => { d with cfg := cfg' }) :=
        stepH_updInst aid s _
      have hn : aid < (updInst s aid fun d => { d with cfg := cfg' }).nextId := haid
      have hcd := constructDeps_spec hc zero adapterID rwd meta itemMeta aid _ hn
      refine ⟨st1.stepHTransC hcd.1, hcd.2.1, ?_⟩
      intro a ha hh
      exact hcd.2.2 a ha hh

theorem allocState_lookup (zero : FactorySpec) (adapterID regKey : String) (s : RegState) :
    alookup (allocState zero adapterID regKey s).adapters regKey = some s.nextId := by
  simp [allocState, alookup]

theorem allocState_step (zero : FactorySpec) (adapterID regKey : String) (s : RegState)
    (hmiss : alookup s.adapters regKey = none) :
    Step s (allocState zero adapterID regKey s) := by
  refine ⟨?_, Nat.le_succ _, ?_, ?_, ?_⟩
  · intro k a hk
    by_cases hkk : regKey = k
    · subst hkk; rw [hk] at hmiss; cases hmiss
    · simpa [allocState, alookup, hkk] using hk
  · intro w
    refine ⟨?_, ?_, ?_⟩
    · intro k a hk
      simp only [allocState, alookup] at hk
      by_cases hkk : regKey = k
      · rw [if_pos hkk] at hk
        cases hk
        exact Nat.lt_succ_self _
      · rw [if_neg hkk] at hk
        exact Nat.lt_succ_of_lt (w.1 k a hk)
    · intro k k' a hk hk'
      simp only [allocState, alookup] at hk hk'
      by_cases h1 : regKey = k <;> by_cases h2 : regKey = k'
      · rw [← h1, ← h2]
      · rw [if_pos h1] at hk
        rw [if_neg h2] at hk'
        cases hk
        exact absurd (w.1 k' _ hk') (Nat.lt_irrefl _)
      · rw [if_neg h1] at hk
        rw [if_pos h2] at hk'
        cases hk'
        exact absurd (w.1 k _ hk) (Nat.lt_irrefl _)
      · rw [if_neg h1] at hk
        rw [if_neg h2] at hk'
        exact w.2.1 k k' a hk hk'
    · intro i hi
      exact Nat.lt_succ_of_lt (w.2.2 i hi)
  · intro i hi
    simp [allocState, alookup, Nat.ne_of_gt hi]
  · intro i _
    exact Eq.refl _

theorem constructNew_spec {construct : Construct} (hc : ConstructStep construct)
    (zero : FactorySpec) (adapterID regKey rwd : String)
    (meta itemMeta : Option MetaHeader) (s : RegState)
    (hmiss : alookup s.adapters regKey = none) :
    alookup ((constructNew construct zero adapterID regKey rwd meta itemMeta s).2).adapters
        regKey = some s.nextId ∧
    (∀ a, (constructNew construct zero adapterID regKey rwd meta itemMeta s).1 = .ok a →
      a = s.nextId) ∧
    Step s (constructNew construct zero adapterID regKey rwd meta itemMeta s).2 ∧
    (∀ a, (constructNew construct zero adapterID regKey rwd meta itemMeta s).1 = .ok a →
      zero.hydrater = true → StateWF s →
      List.count s.nextId
        ((constructNew construct zero adapterID regKey rwd meta itemMeta s).2).hydrates
        = 1) := by
  have haid : s.nextId < (allocState zero adapterID regKey s).nextId := Nat.lt_succ_self _
  have hgo := constructGo_spec hc zero adapterID rwd meta itemMeta s.nextId
    (allocState zero adapterID regKey s) haid
  have hstep : Step s (constructNew construct zero adapterID regKey rwd meta itemMeta s).2 :=
    (allocState_step zero adapterID regKey s hmiss).stepTransC (Nat.le_refl _) hgo.1
  refine ⟨?_, hgo.2.1, hstep, ?_⟩
  · exact hgo.1.adapters regKey s.nextId (allocState_lookup zero adapterID regKey s)
  · intro a ha hh w
    have hcnt := hgo.2.2 a ha hh
    have hzero : List.count s.nextId (allocState zero adapterID regKey s).hydrates = 0 := by
      rw [List.count_eq_zero]
      intro hmem
      have : s.nextId < s.nextId := w.2.2 s.nextId hmem
      exact absurd this (Nat.lt_irrefl _)
    rw [hzero] at hcnt
    exact hcnt

theorem newAdapterWithContext_step (env : Env) :
    ∀ n, ConstructStep (newAdapterWithContext env n) := by
  intro n
  induction n with
  | zero => intro s id wd args; exact Step.refl s
  | succ n ih =>
    intro s id wd args
    simp only [newAdapterWithContext]
    split
    · exact Step.refl s
    · rename_i zero meta itemMeta rwd regKey hpeq
      split
      · exact Step.refl s
      · rename_i heq2
        exact (constructNew_spec ih zero id regKey rwd meta itemMeta s heq2).2.2.1

theorem newAdapter_cacheHit (env : Env) (n : Nat) (s : RegState) (id wd : String)
    (args : List String) (z : FactorySpec) (m im : Option MetaHeader) (rwd k : String)
    (hprep : prep env id wd args = .ok (z, m, im, rwd, k))
    (a : Nat) (hhit : alookup s.adapters k = some a) :
    newAdapterWithContext env (n + 1) s id wd args = (.ok a, s) := by
  simp only [newAdapterWithContext, hprep, hhit]

theorem newAdapter_ok_cached (env : Env) (n : Nat) (s : RegState) (id wd : String)
    (args : List String) (z : FactorySpec) (m im : Option MetaHeader) (rwd k : String)
    (hprep : prep env id wd args = .ok (z, m, im, rwd, k))
    (a : Nat) (s' : RegState)
    (hrun : newAdapterWithContext env n s id wd args = (.ok a, s')) :
    alookup s'.adapters k = some a := by
  cases n with
  | zero => simp [newAdapterWithContext] at hrun
  | succ n =>
    simp only [newAdapterWithContext, hprep] at hrun
    cases hhit : alookup s.adapters k with
    | some ex =>
      rw [hhit] at hrun
      cases hrun
      exact hhit
    | none =>
      rw [hhit] at hrun
      have hrun' : constructNew (newAdapterWithContext env n) z id k rwd m im s =
          (.ok a, s') := hrun
      have spec := constructNew_spec (newAdapterWithContext_step env n) z id k rwd m im s hhit
      rw [hrun'] at spec
      have ha : a = s.nextId := spec.2.1 a (Eq.refl _)
      rw [ha]
      exact spec.1

theorem newAdapter_ok_fresh (env : Env) (n : Nat) (s : RegState) (id wd : String)
    (args : List String) (z : FactorySpec) (m im : Option MetaHeader) (rwd k : String)
    (hprep : prep env id wd args = .ok (z, m, im, rwd, k))
    (hmiss : alookup s.adapters k = none)
    (a : Nat) (s' : RegState)
    (hrun : newAdapterWithContext env (n + 1) s id wd args = (.ok a, s')) :
    a = s.nextId := by
  simp only [newAdapterWithContext, hprep, hmiss] at hrun
  have hrun' : constructNew (newAdapterWithContext env n) z id k rwd m im s =
      (.ok a, s') := hrun
  have spec := constructNew_spec (newAdapterWithContext_step env n) z id k rwd m im s hmiss
  rw [hrun'] at spec
  exact spec.2.1 a (Eq.refl _)

theorem newAdapter_err_cached (env : Env) (n : Nat) (s : RegState) (id wd : String)
    (args : List String) (z : FactorySpec) (m im : Option MetaHeader) (rwd k : String)
    (hprep : prep env id wd args = .ok (z, m, im, rwd, k))
    (hmiss : alookup s.adapters k = none)
    (e : Err) (s' : RegState)
    (hrun : newAdapterWithContext env (n + 1) s id wd args = (.error e, s')) :
    alookup s'.adapters k = some s.nextId := by
  simp only [newAdapterWithContext, hprep, hmiss] at hrun
  have hrun' : constructNew (newAdapterWithContext env n) z id k rwd m im s =
      (.error e, s') := hrun
  have spec := constructNew_spec (newAdapterWithContext_step env n) z id k rwd m im s hmiss
  rw [hrun'] at spec
  exact spec.1

theorem newAdapter_fresh_hydrates_once (env : Env) (n : Nat) (s : RegState) (id wd : String)
    (args : List String) (z : FactorySpec) (m im : Option MetaHeader) (rwd k : String)
    (hprep : prep env id wd args = .ok (z, m, im, rwd, k))
    (hmiss : alookup s.adapters k = none)
    (a : Nat) (s' : RegState)
    (hrun : newAdapterWithContext env (n + 1) s id wd args = (.ok a, s'))
    (hh : z.hydrater = true) (w : StateWF s) :
    List.count a s'.hydrates = 1 := by
  simp only [newAdapterWithContext, hprep, hmiss] at hrun
  have hrun' : constructNew (newAdapterWithContext env n) z id k rwd m im s =
      (.ok a, s') := hrun
  have spec := constructNew_spec (newAdapterWithContext_step env n) z id k rwd m im s hmiss
  rw [hrun'] at spec
  have ha : a = s.nextId := spec.2.1 a (Eq.refl _)
  rw [ha]
  exact spec.2.2.2 a (Eq.refl _) hh w

theorem prep_spec (env : Env) (id wd : String) (args : List String)
    (z : FactorySpec) (m im : Option MetaHeader) (rwd k : String)
    (h : prep env id wd args = .ok (z, m, im, rwd, k)) :
    alookup env.factories (toLower id) = some z ∧ k = keyGen z id im rwd := by
  simp only [prep] at h
  split at h
  · cases h
  · split at h
    · cases h
    · rename_i sm zero hz
      split at h
      · cases h
      · split at h
        · cases h
        · cases h
          exact ⟨hz, Eq.refl _⟩

theorem keyGen_congr (z : FactorySpec) (id1 id2 : String) (im1 im2 : Option MetaHeader)
    (c : String) (hid : toLower id1 = toLower id2)
    (hitem : itemNamePart im1 = itemNamePart im2) :
    keyGen z id1 im1 c = keyGen z id2 im2 c := by
  simp only [keyGen, hid, hitem]

/-- C1: two construction requests on the same registry with identical
adapter id (case-insensitively), identical resolved item name, and identical
resolved working context produce the same cache key; after the first request
succeeds, the second request short-circuits at the cache probe — it returns
the identical instance and leaves the whole registry state (hence every
modelled configuration, dependency-injection and hydration effect)
untouched; and across both requests the instance was hydrated exactly once.
-/
theorem newAdapter_identical_requests_reuse
    (env : Env) (s0 : RegState)
    (id1 id2 wd1 wd2 : String) (args1 args2 : List String)
    (z1 z2 : FactorySpec) (m1 m2 im1 im2 : Option MetaHeader) (rwd1 rwd2 k1 k2 : String)
    (hprep1 : prep env id1 wd1 args1 = .ok (z1, m1, im1, rwd1, k1))
    (hprep2 : prep env id2 wd2 args2 = .ok (z2, m2, im2, rwd2, k2))
    (hid : toLower id1 = toLower id2)
    (hitem : itemNamePart im1 = itemNamePart im2)
    (hctx : rwd1 = rwd2)
    (hfresh : alookup s0.adapters k1 = none) (hwf : StateWF s0)
    (n1 n2 : Nat) (a : Nat) (s1 : RegState)
    (hrun1 : newAdapterWithContext env n1 s0 id1 wd1 args1 = (.ok a, s1)) :
    newAdapterWithContext env (n2 + 1) s1 id2 wd2 args2 = (.ok a, s1) ∧
    (z1.hydrater = true → List.count a s1.hydrates = 1) := by
  have p1 := prep_spec env id1 wd1 args1 z1 m1 im1 rwd1 k1 hprep1
  have p2 := prep_spec env id2 wd2 args2 z2 m2 im2 rwd2 k2 hprep2
  have hz : z1 = z2 := by
    have h1 := p1.1
    rw [hid] at h1
    have := h1.symm.trans p2.1
    exact Option.some.inj this
  have hk : k2 = k1 := by
    rw [p1.2, p2.2, ← hz, ← hctx]
    exact (keyGen_congr z1 id1 id2 im1 im2 rwd1 hid hitem).symm
  have hcached : alookup s1.adapters k1 = some a :=
    newAdapter_ok_cached env n1 s0 id1 wd1 args1 z1 m1 im1 rwd1 k1 hprep1 a s1 hrun1
  constructor
  · exact newAdapter_cacheHit env n2 s1 id2 wd2 args2 z2 m2 im2 rwd2 k2 hprep2 a
      (hk ▸ hcached)
  · intro hh
    cases n1 with
    | zero => simp [newAdapterWithContext] at hrun1
    | succ n =>
      exact newAdapter_fresh_hydrates_once env n s0 id1 wd1 args1 z1 m1 im1 rwd1 k1
        hprep1 hfresh a s1 hrun1 hh hwf

theorem newAdapter_identical_requests_reuse_witness :
    newAdapterWithContext envC1 (5 + 1) s1C1 "ALPHA" "" [] = (.ok 0, s1C1) ∧
    List.count 0 s1C1.hydrates = 1 := by
  have h := newAdapter_identical_requests_reuse envC1 regState0 "Alpha" "ALPHA" "" ""
    [] [] zC1 zC1 none none none none "" "" "alpha" "alpha"
    (by rfl) (by rfl) (by decide) (by rfl) (by rfl) (by decide) stateWF_regState0
    1 5 0 s1C1 (by decide)
  exact ⟨h.1, h.2 (by rfl)⟩

/-- C4: on a cache miss the raw zero-valued instance is pre-registered in
the cache before any configuration, so when construction fails at any later
lifecycle step the entry survives: it still maps the cache key to the
freshly allocated instance, and any subsequent request resolving to the same
cache key returns that partially-initialized instance as a reuse hit,
leaving the state untouched. -/
theorem newAdapter_failed_construction_leaves_cached
    (env : Env) (s0 : RegState) (id wd : String) (args : List String)
    (z : FactorySpec) (m im : Option MetaHeader) (rwd k : String)
    (hprep : prep env id wd args = .ok (z, m, im, rwd, k))
    (hmiss : alookup s0.adapters k = none)
    (n : Nat) (e : Err) (s1 : RegState)
    (hrun : newAdapterWithContext env (n + 1) s0 id wd args = (.error e, s1)) :
    alookup s1.adapters k = some s0.nextId ∧
    (∀ (n2 : Nat) (id2 wd2 : String) (args2 : List String) (z2 : FactorySpec)
      (m2 im2 : Option MetaHeader) (rwd2 : String),
      prep env id2 wd2 args2 = .ok (z2, m2, im2, rwd2, k) →
      newAdapterWithContext env (n2 + 1) s1 id2 wd2 args2 = (.ok s0.nextId, s1)) := by
  have h1 : alookup s1.adapters k = some s0.nextId :=
    newAdapter_err_cached env n s0 id wd args z m im rwd k hprep hmiss e s1 hrun
  refine ⟨h1, ?_⟩
  intro n2 id2 wd2 args2 z2 m2 im2 rwd2 hprep2
  exact newAdapter_cacheHit env n2 s1 id2 wd2 args2 z2 m2 im2 rwd2 k hprep2 s0.nextId h1

theorem newAdapter_failed_construction_leaves_cached_witness :
    alookup s1C4.adapters "boom" = some 0 ∧
    newAdapterWithContext envC4 (3 + 1) s1C4 "boom" "" [] = (.ok 0, s1C4) := by
  have h := newAdapter_failed_construction_leaves_cached envC4 regState0 "boom" "" []
    zC4 none none "" "boom" (by rfl) (by decide) 0 (.hydrate "boom") s1C4 (by decide)
  exact ⟨h.1, h.2 3 "boom" "" [] zC4 none none "" (by rfl)⟩

theorem prepC2 (c : String) :
    prep envC2 "cad" c [] = .ok (zC2, none, none, c, keyC2 c) := by
  simp [prep, envC2, loadTolerant, SearchMap.Load, SearchMap.Resolve, alookup,
    resolveWorkDir, keyC2, toLower, toLowerChar, Err.isNotExist]

theorem runC2 (c : String) (hc : c ≠ "") :
    newAdapterWithContext envC2 1 regState0 "cad" c [] = (.ok 0, s1C2 c) := by
  have hp := prepC2 c
  show newAdapterWithContext envC2 (0 + 1) regState0 "cad" c [] = (.ok 0, s1C2 c)
  simp only [newAdapterWithContext, hp]
  have hprobe : alookup regState0.adapters (keyC2 c) = none := by rfl
  rw [hprobe]
  simp [constructNew, constructGo, constructDeps, allocState, applyConfig, getInst,
    updInst, alookup, applyDepsGo, findStructDeps, mergeDeps, resolveMapDepsGo,
    resolveStructDepsGo, validateRequiredDeps, zC2, regState0, s1C2, hc,
    Nat.add_one]

theorem foldl_fnv1aStep_lt (bs : List Nat) :
    ∀ h : Nat, h < 2 ^ 64 → List.foldl fnv1aStep h bs < 2 ^ 64 := by
  induction bs with
  | nil => intro h hh; exact hh
  | cons b rest ih =>
    intro h _
    simp only [List.foldl_cons]
    exact ih (fnv1aStep h b) (Nat.mod_lt _ (by decide))

theorem fnv64a_lt (bs : List Nat) : fnv64a bs < 2 ^ 64 :=
  foldl_fnv1aStep_lt bs fnvOffset64 (by decide)

theorem ctxOf_ne_empty (n : Nat) : ctxOf n ≠ "" := by
  intro h
  have hd := congrArg String.data h
  have h0 : ("" : String).data = [] := rfl
  simp only [ctxOf, h0] at hd
  have := congrArg List.length hd
  simp at this

theorem ctxOf_inj {m n : Nat} (h : ctxOf m = ctxOf n) : m = n := by
  have hd : List.replicate (m + 1) 'a' = List.replicate (n + 1) 'a' := by
    injection h
  have := congrArg List.length hd
  simp only [List.length_replicate] at this
  omega

theorem keyC2_congr (c1 c2 : String) (h1 : c1 ≠ "") (h2 : c2 ≠ "")
    (hh : fnv64a (strBytes (toLower "cad") ++ 0 :: strBytes c1) =
          fnv64a (strBytes (toLower "cad") ++ 0 :: strBytes c2)) :
    keyC2 c1 = keyC2 c2 := by
  simp only [keyC2, keyGen, itemNamePart]
  rw [if_neg (by simp [zC2, h1]), if_neg (by simp [zC2, h2]), hh]

/-- C2 counterexample: the cache key discriminates contexts only through a
64-bit FNV-1a hash suffix, and the hash has collisions (infinitely many
contexts, finitely many hash values); at a collision two requests that are
identical except for their distinct, non-empty resolved working contexts on
a context-aware adapter return the *same* instance — the second is a cache
hit — refuting the claim as stated. -/
theorem newAdapter_context_collision_counterexample :
    ∃ c1 c2 : String, c1 ≠ c2 ∧ c1 ≠ "" ∧ c2 ≠ "" ∧
      ∃ s1 : RegState,
        newAdapterWithContext envC2 1 regState0 "cad" c1 [] = (.ok 0, s1) ∧
        newAdapterWithContext envC2 1 s1 "cad" c2 [] = (.ok 0, s1) := by
  obtain ⟨m, n, hmn, hcoll⟩ := Finite.exists_ne_map_eq_of_infinite
    (fun j : Nat =>
      (⟨fnv64a (strBytes (toLower "cad") ++ 0 :: strBytes (ctxOf j)),
        fnv64a_lt _⟩ : Fin (2 ^ 64)))
  have hhash : fnv64a (strBytes (toLower "cad") ++ 0 :: strBytes (ctxOf m)) =
      fnv64a (strBytes (toLower "cad") ++ 0 :: strBytes (ctxOf n)) := by
    simpa using congrArg Fin.val hcoll
  refine ⟨ctxOf m, ctxOf n, fun h => hmn (ctxOf_inj h), ctxOf_ne_empty m, ctxOf_ne_empty n,
    s1C2 (ctxOf m), runC2 (ctxOf m) (ctxOf_ne_empty m), ?_⟩
  have hkeys : keyC2 (ctxOf n) = keyC2 (ctxOf m) :=
    (keyC2_congr (ctxOf m) (ctxOf n) (ctxOf_ne_empty m) (ctxOf_ne_empty n) hhash).symm
  have hhit : alookup (s1C2 (ctxOf m)).adapters (keyC2 (ctxOf n)) = some 0 := by
    rw [hkeys]
    simp [s1C2, alookup]
  exact newAdapter_cacheHit envC2 0 (s1C2 (ctxOf m)) "cad" (ctxOf n) [] zC2 none none
    (ctxOf n) (keyC2 (ctxOf n)) (prepC2 (ctxOf n)) 0 hhit

/-- C2 (amended): on a context-aware adapter, two requests identical except
for their resolved working contexts return two *distinct* instances whenever
the two cache keys — which differ exactly in the FNV-1a hash suffix derived
from the context — are distinct; an FNV-1a collision between the two
contexts conflates the keys and returns the same instance (see the
counterexample). -/
theorem newAdapter_distinct_context_distinct_instances
    (env : Env) (s0 : RegState)
    (id1 id2 wd1 wd2 : String) (args1 args2 : List String)
    (z1 z2 : FactorySpec) (m1 m2 im1 im2 : Option MetaHeader) (rwd1 rwd2 k1 k2 : String)
    (hprep1 : prep env id1 wd1 args1 = .ok (z1, m1, im1, rwd1, k1))
    (hprep2 : prep env id2 wd2 args2 = .ok (z2, m2, im2, rwd2, k2))
    (hws : z1.workDirSettable = true)
    (hctxne : rwd1 ≠ rwd2)
    (hkey : k1 ≠ k2)
    (hwf : StateWF s0)
    (n1 n2 : Nat) (a1 a2 : Nat) (s1 s2 : RegState)
    (hrun1 : newAdapterWithContext env n1 s0 id1 wd1 args1 = (.ok a1, s1))
    (hrun2 : newAdapterWithContext env (n2 + 1) s1 id2 wd2 args2 = (.ok a2, s2)) :
    a1 ≠ a2 := by
  have hcached1 : alookup s1.adapters k1 = some a1 :=
    newAdapter_ok_cached env n1 s0 id1 wd1 args1 z1 m1 im1 rwd1 k1 hprep1 a1 s1 hrun1
  have wf1 : StateWF s1 := by
    have st := newAdapterWithContext_step env n1 s0 id1 wd1 args1
    rw [hrun1] at st
    exact st.wfp hwf
  cases hp : alookup s1.adapters k2 with
  | some ex =>
    simp only [newAdapterWithContext, hprep2, hp] at hrun2
    cases hrun2
    intro heq
    exact hkey (wf1.2.1 k1 k2 a1 hcached1 (heq ▸ hp))
  | none =>
    have ha2 : a2 = s1.nextId :=
      newAdapter_ok_fresh env n2 s1 id2 wd2 args2 z2 m2 im2 rwd2 k2 hprep2 hp a2 s2 hrun2
    have ha1 : a1 < s1.nextId := wf1.1 k1 a1 hcached1
    rw [ha2]
    exact Nat.ne_of_lt ha1

theorem newAdapter_distinct_context_distinct_instances_witness :
    newAdapterWithContext envC2 1 regState0 "cad" "/x" [] = (.ok 0, s1C2 "/x") ∧
    newAdapterWithContext envC2 1 (s1C2 "/x") "cad" "/y" [] = (.ok 1, s2C2) ∧
    (0 : Nat) ≠ 1 := by
  refine ⟨by decide, by decide, ?_⟩
  exact newAdapter_distinct_context_distinct_instances envC2 regState0 "cad" "cad"
    "/x" "/y" [] [] zC2 zC2 none none none none "/x" "/y" (keyC2 "/x") (keyC2 "/y")
    (prepC2 "/x") (prepC2 "/y") (by rfl) (by decide) (by decide) stateWF_regState0
    1 0 0 1 (s1C2 "/x") s2C2 (runC2 "/x" (by decide)) (by decide)

theorem alookup_append {α : Type} (l1 l2 : List (String × α)) (k : String) :
    alookup (l1 ++ l2) k = ofirst (alookup l1 k) (alookup l2 k) := by
  induction l1 with
  | nil => simp [alookup, ofirst]
  | cons p rest ih =>
    obtain ⟨pk, pv⟩ := p
    by_cases hpk : pk = k
    · simp [alookup, hpk, ofirst]
    · simp only [List.cons_append, alookup, if_neg hpk]
      exact ih

theorem lookupLast_cons {α : Type} (pk : String) (pv : α) (P : List (String × α))
    (k : String) :
    lookupLast ((pk, pv) :: P) k =
      ofirst (lookupLast P k) (if pk = k then some pv else none) := by
  simp only [lookupLast, List.reverse_cons]
  rw [alookup_append]
  by_cases hpk : pk = k <;> simp [alookup, hpk]

theorem alookup_decodeObj (P : List (String × String)) (t : List (String × String))
    (k : String) :
    alookup (decodeObj P t) k = ofirst (lookupLast P k) (alookup t k) := by
  induction P generalizing t with
  | nil => simp [decodeObj, lookupLast, ofirst, alookup]
  | cons kv P ih =>
    obtain ⟨pk, pv⟩ := kv
    simp only [decodeObj, List.foldl_cons]
    have hstep : List.foldl (fun t kv => updKey t kv.1 kv.2) (updKey t pk pv) P =
        decodeObj P (updKey t pk pv) := by simp [decodeObj]
    rw [hstep, ih, alookup_updKey, lookupLast_cons]
    cases hlast : lookupLast P k <;> by_cases hpk : pk = k <;> simp [ofirst, hpk]

/-- C3: when an adapter-level payload and an item-level payload are both
decoded during one construction (the adapter being configurable and
item-configurable, both payloads decodable objects), `applyConfig` decodes
them in that order into the same underlying target, so every field named in
the item payload ends with the item value, every field named only in the
adapter payload keeps the adapter value, and all other fields keep their
prior value. -/
theorem applyConfig_item_shadows_adapter
    (z : FactorySpec) (adapterID : String) (m im : MetaHeader)
    (P1 P2 cfg0 : List (String × String))
    (hconf : z.configurable = true) (hitem : z.itemConfigurable = true)
    (hm : m.rawSpec = .obj P1) (him : im.rawSpec = .obj P2) :
    applyConfig z adapterID (some m) (some im) cfg0 =
      .ok (decodeObj P2 (decodeObj P1 cfg0)) ∧
    ∀ k, ((lookupLast P2 k).isSome →
            alookup (decodeObj P2 (decodeObj P1 cfg0)) k = lookupLast P2 k) ∧
         (lookupLast P2 k = none → (lookupLast P1 k).isSome →
            alookup (decodeObj P2 (decodeObj P1 cfg0)) k = lookupLast P1 k) ∧
         (lookupLast P2 k = none → lookupLast P1 k = none →
            alookup (decodeObj P2 (decodeObj P1 cfg0)) k = alookup cfg0 k) := by
  constructor
  · simp [applyConfig, hm, him, hconf, hitem]
  · intro k
    rw [alookup_decodeObj, alookup_decodeObj]
    refine ⟨?_, ?_, ?_⟩
    · intro hs
      cases h2 : lookupLast P2 k with
      | none => rw [h2] at hs; cases hs
      | some v => simp [ofirst]
    · intro h2 hs
      cases h1 : lookupLast P1 k with
      | none => rw [h1] at hs; cases hs
      | some v => simp [ofirst, h2]
    · intro h2 h1
      simp [ofirst, h1, h2]

theorem applyConfig_item_shadows_adapter_witness :
    applyConfig zC3 "adp" (some mC3) (some imC3) [] =
      .ok [("label", "instance-1"), ("foo", "item-foo")] ∧
    alookup [("label", "instance-1"), ("foo", "item-foo")] "foo" = some "item-foo" ∧
    alookup [("label", "instance-1"), ("foo", "item-foo")] "label" = some "instance-1" := by
  have h := applyConfig_item_shadows_adapter zC3 "adp" mC3 imC3
    [("foo", "global-foo")] [("foo", "item-foo"), ("label", "instance-1")] []
    (by rfl) (by rfl) (by rfl) (by rfl)
  refine ⟨h.1.trans (by decide), ?_, ?_⟩
  · have := (h.2 "foo").1 (by decide)
    rw [show decodeObj [("foo", "item-foo"), ("label", "instance-1")]
        (decodeObj [("foo", "global-foo")] []) =
        [("label", "instance-1"), ("foo", "item-foo")] from by decide] at this
    exact this.trans (by decide)
  · have := (h.2 "label").1 (by decide)
    rw [show decodeObj [("foo", "item-foo"), ("label", "instance-1")]
        (decodeObj [("foo", "global-foo")] []) =
        [("label", "instance-1"), ("foo", "item-foo")] from by decide] at this
    exact this.trans (by decide)

theorem getField_eq_fieldsOf (s : RegState) (aid : Nat) (fn : String) :
    getField s aid fn = (alookup (fieldsOf s aid) fn).getD none := Eq.refl _

theorem fieldsOf_updInst (s : RegState) (aid' : Nat) (f : InstData → InstData)
    (hf : ∀ d, (f d).fields = d.fields) (aid : Nat) :
    fieldsOf (updInst s aid' f) aid = fieldsOf s aid := by
  unfold fieldsOf getInst
  rw [alookup_updInst]
  by_cases h : aid' = aid
  · rw [if_pos h]
    cases alookup s.instances aid <;> simp [hf]
  · rw [if_neg h]

theorem isSome_updInst (s : RegState) (aid' : Nat) (f : InstData → InstData) (aid : Nat) :
    (alookup (updInst s aid' f).instances aid).isSome =
      (alookup s.instances aid).isSome := by
  rw [alookup_updInst]
  by_cases h : aid' = aid
  · rw [if_pos h]
    cases alookup s.instances aid <;> simp
  · rw [if_neg h]

theorem fieldsOf_setField (s : RegState) (aid : Nat) (fn : String) (v : Nat)
    (h : (alookup s.instances aid).isSome = true) :
    fieldsOf (setField s aid fn v) aid = updKey (fieldsOf s aid) fn (some v) := by
  unfold fieldsOf getInst setField
  rw [alookup_updInst, if_pos (Eq.refl _)]
  cases halo : alookup s.instances aid with
  | none => rw [halo] at h; cases h
  | some d => simp

theorem step_fieldsOf {s s' : RegState} (st : Step s s') (aid : Nat) (h : aid < s.nextId) :
    fieldsOf s' aid = fieldsOf s aid := by
  unfold fieldsOf getInst
  rw [st.inst aid h]

theorem step_isSome {s s' : RegState} (st : Step s s') (aid : Nat) (h : aid < s.nextId) :
    (alookup s'.instances aid).isSome = (alookup s.instances aid).isSome := by
  rw [st.inst aid h]

theorem validateRequiredDeps_ok_spec (fields : List FieldSpec)
    (vals : List (String × Option Nat))
    (h : validateRequiredDeps fields vals = .ok ()) :
    ∀ f ∈ fields, f.tag = "required" → (alookup vals f.name).getD none ≠ none := by
  induction fields with
  | nil => intro f hf; cases hf
  | cons g rest ih =>
    simp only [validateRequiredDeps] at h
    split at h
    · cases h
    · rename_i hcond
      intro f hf htag
      rcases List.mem_cons.mp hf with hf | hf
      · subst hf
        intro hnil
        exact hcond ⟨htag, hnil⟩
      · exact ih h f hf htag

theorem validateRequiredDeps_names_field (fields : List FieldSpec)
    (vals : List (String × Option Nat))
    (hex : ∃ f ∈ fields, f.tag = "required" ∧ (alookup vals f.name).getD none = none) :
    ∃ g ∈ fields, g.tag = "required" ∧ (alookup vals g.name).getD none = none ∧
      validateRequiredDeps fields vals = .error (.missingRequired g.name) := by
  induction fields with
  | nil =>
    obtain ⟨f, hf, _⟩ := hex
    cases hf
  | cons g rest ih =>
    by_cases hcond : g.tag = "required" ∧ (alookup vals g.name).getD none = none
    · refine ⟨g, List.mem_cons_self g rest, hcond.1, hcond.2, ?_⟩
      simp only [validateRequiredDeps, if_pos hcond]
    · obtain ⟨f, hf, hftag, hfnil⟩ := hex
      rcases List.mem_cons.mp hf with hf | hf
      · subst hf
        exact absurd ⟨hftag, hfnil⟩ hcond
      · obtain ⟨g', hg', h1, h2, h3⟩ := ih ⟨f, hf, hftag, hfnil⟩
        refine ⟨g', List.mem_cons_of_mem g hg', h1, h2, ?_⟩
        simp only [validateRequiredDeps, if_neg hcond]
        exact h3

theorem mergeDeps_eq_fold (config : Option (List (String × DepRef)))
    (inferred : List (String × DepRef)) :
    mergeDeps config (some inferred) = some (inferred.foldl mergeFill (config.getD [])) := by
  cases config <;> rfl

theorem mergeFold_preserves (k : String) (ref : DepRef) :
    ∀ (inf out : List (String × DepRef)), alookup out k = some ref →
      alookup (inf.foldl mergeFill out) k = some ref := by
  intro inf
  induction inf with
  | nil => intro out h; exact h
  | cons kv rest ih =>
    intro out h
    simp only [List.foldl_cons, mergeFill]
    by_cases hpres : (alookup out kv.1).isSome
    · rw [if_pos hpres]
      exact ih out h
    · rw [if_neg hpres]
      refine ih _ ?_
      rw [alookup_append, h]
      exact Eq.refl _

theorem mergeFold_absent (k : String) :
    ∀ (inf out : List (String × DepRef)), alookup out k = none →
      alookup (inf.foldl mergeFill out) k = alookup inf k := by
  intro inf
  induction inf with
  | nil => intro out h; exact h
  | cons kv rest ih =>
    obtain ⟨ik, ir⟩ := kv
    intro out h
    simp only [List.foldl_cons, mergeFill, alookup]
    by_cases hik : ik = k
    · subst hik
      have hpres : ¬ (alookup out ik).isSome := by rw [h]; simp
      rw [if_neg hpres, if_pos (Eq.refl _)]
      refine mergeFold_preserves ik ir rest _ ?_
      rw [alookup_append, h]
      simp [alookup, ofirst]
    · rw [if_neg hik]
      by_cases hpres : (alookup out ik).isSome
      · rw [if_pos hpres]
        exact ih out h
      · rw [if_neg hpres]
        refine ih _ ?_
        rw [alookup_append, h]
        simp [alookup, ofirst, fun hc => hik hc]

theorem mergeDeps_inferred_mem (config : Option (List (String × DepRef)))
    (inferred : List (String × DepRef)) (kn : String)
    (h : (alookup inferred kn).isSome) :
    (alookup ((mergeDeps config (some inferred)).getD []) kn).isSome := by
  rw [mergeDeps_eq_fold]
  simp only [Option.getD_some]
  cases hc : alookup (config.getD []) kn with
  | some ref => rw [mergeFold_preserves kn ref inferred _ hc]; exact Eq.refl _
  | none => rw [mergeFold_absent kn inferred _ hc]; exact h

theorem findStructDeps_mem (fields : List FieldSpec) (f : FieldSpec)
    (hmem : f ∈ fields) (hexp : f.exported = true)
    (htag : trimSpace f.tag ≠ "") (hinf : tagDepAdapter (trimSpace f.tag) ≠ "") :
    (alookup (findStructDeps fields) f.name).isSome := by
  induction fields with
  | nil => cases hmem
  | cons g rest ih =>
    rcases List.mem_cons.mp hmem with hf | hf
    · subst hf
      simp only [findStructDeps, hexp, not_true_eq_false, if_false]
      rw [if_neg htag, if_neg hinf]
      simp [alookup]
    · simp only [findStructDeps]
      by_cases hg1 : ¬ g.exported
      · rw [if_pos hg1]
        exact ih hf
      · rw [if_neg hg1]
        by_cases hg2 : trimSpace g.tag = ""
        · rw [if_pos hg2]
          exact ih hf
        · rw [if_neg hg2]
          by_cases hg3 : tagDepAdapter (trimSpace g.tag) = ""
          · rw [if_pos hg3]
            exact ih hf
          · rw [if_neg hg3]
            simp only [alookup]
            by_cases hname : g.name = f.name
            · rw [if_pos hname]; exact Eq.refl _
            · rw [if_neg hname]; exact ih hf

theorem resolveMapDepsGo_fieldsOf {construct : Construct} (hc : ConstructStep construct)
    (wd : String) (aid : Nat) :
    ∀ (deps : List (String × DepRef)) (s : RegState), aid < s.nextId →
      fieldsOf ((resolveMapDepsGo construct wd aid s deps).2) aid = fieldsOf s aid ∧
      (alookup ((resolveMapDepsGo construct wd aid s deps).2).instances aid).isSome =
        (alookup s.instances aid).isSome := by
  intro deps
  induction deps with
  | nil => intro s _; exact ⟨Eq.refl _, Eq.refl _⟩
  | cons kv rest ih =>
    obtain ⟨name, ref⟩ := kv
    intro s haid
    simp only [resolveMapDepsGo]
    rcases hcr : construct s ref.adapter wd
      ((if ref.name ≠ "" then [ref.name] else []) ++ ref.args) with ⟨r, s2⟩
    have hstep : Step s s2 := by
      have := hc s ref.adapter wd ((if ref.name ≠ "" then [ref.name] else []) ++ ref.args)
      rwa [hcr] at this
    cases r with
    | error e =>
      exact ⟨step_fieldsOf hstep aid haid, step_isSome hstep aid haid⟩
    | ok dep =>
      have haid2 : aid < (addDependency s2 aid name dep).nextId :=
        Nat.lt_of_lt_of_le haid hstep.le
      have hrec := ih (addDependency s2 aid name dep) haid2
      refine ⟨?_, ?_⟩
      · rw [hrec.1]
        have h1 : fieldsOf (addDependency s2 aid name dep) aid = fieldsOf s2 aid :=
          fieldsOf_updInst s2 aid
            (fun d => { d with depMap := updKey d.depMap name dep })
            (fun d => Eq.refl _) aid
        rw [h1]
        exact step_fieldsOf hstep aid haid
      · rw [hrec.2]
        have h2 : (alookup (addDependency s2 aid name dep).instances aid).isSome =
            (alookup s2.instances aid).isSome :=
          isSome_updInst s2 aid
            (fun d => { d with depMap := updKey d.depMap name dep }) aid
        rw [h2]
        exact step_isSome hstep aid haid

theorem resolveStructDepsGo_sets {construct : Construct} (hc : ConstructStep construct)
    (caps : FactorySpec) (wd : String) (aid : Nat) :
    ∀ (deps : List (String × DepRef)) (s : RegState),
      aid < s.nextId → (alookup s.instances aid).isSome = true →
      (resolveStructDepsGo construct caps wd aid s deps).1 = .ok () →
      (alookup ((resolveStructDepsGo construct caps wd aid s deps).2).instances aid).isSome
          = true ∧
      (∀ fn, getField s aid fn ≠ none →
        getField ((resolveStructDepsGo construct caps wd aid s deps).2) aid fn ≠ none) ∧
      (∀ kn, (alookup deps kn).isSome →
        getField ((resolveStructDepsGo construct caps wd aid s deps).2) aid
          (toCapWords kn) ≠ none) := by
  intro deps
  induction deps with
  | nil =>
    intro s _ hsome _
    refine ⟨hsome, fun fn h => h, fun kn hkn => ?_⟩
    simp [alookup] at hkn
  | cons kv rest ih =>
    obtain ⟨mapName, ref⟩ := kv
    intro s haid hsome hok
    rcases hres : resolveStructDepsGo construct caps wd aid s ((mapName, ref) :: rest)
      with ⟨r, s'⟩
    rw [hres] at hok
    simp only at hok ⊢
    simp only [resolveStructDepsGo] at hres
    split at hres
    · cases hres; cases hok
    · rename_i fspec hff
      split at hres
      · cases hres; cases hok
      · rename_i hexp
        rcases hcr : construct s ref.adapter wd
          ((if ref.name ≠ "" then [ref.name] else []) ++ ref.args) with ⟨rc, s2⟩
        rw [hcr] at hres
        have hstep : Step s s2 := by
          have := hc s ref.adapter wd ((if ref.name ≠ "" then [ref.name] else []) ++ ref.args)
          rwa [hcr] at this
        cases rc with
        | error e => cases hres; cases hok
        | ok dep =>
          simp only at hres
          split at hres
          · cases hres; cases hok
          · -- assignable: the field is set and the loop continues
            have haid2 : aid < s2.nextId := Nat.lt_of_lt_of_le haid hstep.le
            have hsome2 : (alookup s2.instances aid).isSome = true := by
              rw [step_isSome hstep aid haid]; exact hsome
            have haid3 : aid < (setField s2 aid (toCapWords mapName) dep).nextId := haid2
            have hsome3 :
                (alookup (setField s2 aid (toCapWords mapName) dep).instances aid).isSome
                  = true := by
              have hi := isSome_updInst s2 aid
                (fun d => { d with
                  fields := updKey d.fields (toCapWords mapName) (some dep) }) aid
              exact hi.trans hsome2
            have hrec := ih (setField s2 aid (toCapWords mapName) dep) haid3 hsome3
              (by rw [hres]; exact hok)
            rw [hres] at hrec
            have hsetf : ∀ fn', getField (setField s2 aid (toCapWords mapName) dep) aid fn' =
                if toCapWords mapName = fn' then some dep else getField s2 aid fn' := by
              intro fn'
              rw [getField_eq_fieldsOf, fieldsOf_setField s2 aid _ dep hsome2,
                alookup_updKey]
              by_cases hfn : toCapWords mapName = fn'
              · rw [if_pos hfn, if_pos hfn]
                exact Eq.refl _
              · rw [if_neg hfn, if_neg hfn]
                exact Eq.refl _
            refine ⟨hrec.1, ?_, ?_⟩
            · intro fn hfn
              refine hrec.2.1 fn ?_
              rw [hsetf fn]
              by_cases hx : toCapWords mapName = fn
              · rw [if_pos hx]; simp
              · rw [if_neg hx]
                rw [getField_eq_fieldsOf, step_fieldsOf hstep aid haid,
                  ← getField_eq_fieldsOf]
                exact hfn
            · intro kn hkn
              simp only [alookup] at hkn
              by_cases hx : mapName = kn
              · refine hrec.2.1 (toCapWords kn) ?_
                rw [hsetf (toCapWords kn), ← hx, if_pos (Eq.refl _)]
                simp
              · rw [if_neg hx] at hkn
                exact hrec.2.2 kn hkn

theorem applyDepsGo_sets {construct : Construct} (hc : ConstructStep construct)
    (caps : FactorySpec) (wd : String) (meta : Option MetaHeader) (s : RegState)
    (aid : Nat) (haid : aid < s.nextId)
    (hsome : (alookup s.instances aid).isSome = true)
    (hok : (applyDepsGo construct caps wd meta s aid).1 = .ok ()) :
    (alookup ((applyDepsGo construct caps wd meta s aid).2).instances aid).isSome = true ∧
    (∀ fn, getField s aid fn ≠ none →
      getField ((applyDepsGo construct caps wd meta s aid).2) aid fn ≠ none) ∧
    (∀ kn,
      (alookup ((mergeDeps
          (match meta with | none => none | some m => m.dependencies)
          (some (findStructDeps caps.fields))).getD []) kn).isSome →
      getField ((applyDepsGo construct caps wd meta s aid).2) aid (toCapWords kn)
        ≠ none) := by
  rcases hres : applyDepsGo construct caps wd meta s aid with ⟨r, s'⟩
  rw [hres] at hok
  simp only at hok ⊢
  simp only [applyDepsGo] at hres
  split at hres
  · rename_i heqm
    rw [mergeDeps_eq_fold] at heqm
    cases heqm
  · rename_i deps heqm
    rw [heqm]
    simp only [Option.getD_some]
    split at hres
    · -- map-dependency loop failed
      rename_i e s1 heq2
      cases hres
      cases hok
    · rename_i u s1 heq2
      have hs1 : fieldsOf s1 aid = fieldsOf s aid ∧
          (alookup s1.instances aid).isSome = (alookup s.instances aid).isSome ∧
          aid < s1.nextId := by
        by_cases hdep : caps.depender = true
        · rw [if_pos hdep] at heq2
          have hmf := resolveMapDepsGo_fieldsOf hc wd aid deps s haid
          have hle := (resolveMapDepsGo_stepH hc wd aid deps s).le
          rw [heq2] at hmf hle
          exact ⟨hmf.1, hmf.2, Nat.lt_of_lt_of_le haid hle⟩
        · rw [if_neg hdep] at heq2
          cases heq2
          exact ⟨Eq.refl _, Eq.refl _, haid⟩
      have hsome1 : (alookup s1.instances aid).isSome = true := hs1.2.1.trans hsome
      have hstruct := resolveStructDepsGo_sets hc caps wd aid deps s1 hs1.2.2 hsome1
        (by rw [hres]; exact hok)
      rw [hres] at hstruct
      refine ⟨hstruct.1, ?_, ?_⟩
      · intro fn hfn
        refine hstruct.2.1 fn ?_
        rw [getField_eq_fieldsOf, hs1.1, ← getField_eq_fieldsOf]
        exact hfn
      · intro kn hkn
        exact hstruct.2.2 kn hkn

theorem constructDeps_sets {construct : Construct} (hc : ConstructStep construct)
    (zero : FactorySpec) (adapterID rwd : String) (meta itemMeta : Option MetaHeader)
    (aid : Nat) (s : RegState) (haid : aid < s.nextId)
    (hsome : (alookup s.instances aid).isSome = true) (a : Nat)
    (hok : (constructDeps construct zero adapterID rwd meta itemMeta aid s).1 = .ok a) :
    validateRequiredDeps zero.fields
      (fieldsOf ((constructDeps construct zero adapterID rwd meta itemMeta aid s).2) aid)
      = .ok () ∧
    (∀ kn,
      (alookup ((mergeDeps
          (match itemMeta with | none => none | some mh => mh.dependencies)
          (some (findStructDeps zero.fields))).getD []) kn).isSome →
      getField ((constructDeps construct zero adapterID rwd meta itemMeta aid s).2) aid
        (toCapWords kn) ≠ none) := by
  rcases hres : constructDeps construct zero adapterID rwd meta itemMeta aid s with ⟨r, s'⟩
  rw [hres] at hok
  simp only at hok ⊢
  simp only [constructDeps] at hres
  split at hres
  · cases hres; cases hok
  · rename_i u sA heq1
    have hp1 := applyDepsGo_sets hc zero rwd meta s aid haid hsome (by rw [heq1])
    have hle1 := (applyDepsGo_stepH hc zero rwd meta s aid).le
    rw [heq1] at hp1 hle1
    simp only at hp1 hle1
    have haidA : aid < sA.nextId := Nat.lt_of_lt_of_le haid hle1
    split at hres
    · cases hres; cases hok
    · rename_i u2 sB heq2
      have hp2 := applyDepsGo_sets hc zero rwd itemMeta sA aid haidA hp1.1 (by rw [heq2])
      rw [heq2] at hp2
      simp only at hp2
      split at hres
      · cases hres; cases hok
      · rename_i u3 heqv
        have hvB : validateRequiredDeps zero.fields (fieldsOf sB aid) = .ok () := heqv
        split at hres
        · split at hres
          · cases hres
            exact ⟨hvB, fun kn hk => hp2.2.2 kn hk⟩
          · cases hres; cases hok
        · cases hres
          exact ⟨hvB, fun kn hk => hp2.2.2 kn hk⟩

theorem constructGo_sets {construct : Construct} (hc : ConstructStep construct)
    (zero : FactorySpec) (adapterID rwd : String) (meta itemMeta : Option MetaHeader)
    (aid : Nat) (s : RegState) (haid : aid < s.nextId)
    (hsome : (alookup s.instances aid).isSome = true) (a : Nat)
    (hok : (constructGo construct zero adapterID rwd meta itemMeta aid s).1 = .ok a) :
    validateRequiredDeps zero.fields
      (fieldsOf ((constructGo construct zero adapterID rwd meta itemMeta aid s).2) aid)
      = .ok () ∧
    (∀ kn,
      (alookup ((mergeDeps
          (match itemMeta with | none => none | some mh => mh.dependencies)
          (some (findStructDeps zero.fields))).getD []) kn).isSome →
      getField ((constructGo construct zero adapterID rwd meta itemMeta aid s).2) aid
        (toCapWords kn) ≠ none) := by
  rcases hres : constructGo construct zero adapterID rwd meta itemMeta aid s with ⟨r, s'⟩
  rw [hres] at hok
  simp only at hok ⊢
  simp only [constructGo] at hres
  split at hres
  · cases hres; cases hok
  · rename_i cfg' heqc
    by_cases hcond : (zero.workDirSettable = true ∧ rwd ≠ "")
    · rw [if_pos hcond] at hres
      have hsome2 : (alookup (updInst
          (updInst s aid fun d => { d with cfg := cfg' }) aid
          fun d => { d with workDir := rwd }).instances aid).isSome = true := by
        rw [isSome_updInst, isSome_updInst]
        exact hsome
      have := constructDeps_sets hc zero adapterID rwd meta itemMeta aid
        (updInst (updInst s aid fun d => { d with cfg := cfg' }) aid
          fun d => { d with workDir := rwd }) haid hsome2 a (by rw [hres]; exact hok)
      rw [hres] at this
      exact this
    · rw [if_neg hcond] at hres
      have hsome2 : (alookup (updInst s aid
          fun d => { d with cfg := cfg' }).instances aid).isSome = true := by
        rw [isSome_updInst]
        exact hsome
      have := constructDeps_sets hc zero adapterID rwd meta itemMeta aid
        (updInst s aid fun d => { d with cfg := cfg' }) haid hsome2 a
        (by rw [hres]; exact hok)
      rw [hres] at this
      exact this

theorem newAdapter_fresh_fields (env : Env) (n : Nat) (s0 : RegState) (id wd : String)
    (args : List String) (z : FactorySpec) (m im : Option MetaHeader) (rwd k : String)
    (hprep : prep env id wd args = .ok (z, m, im, rwd, k))
    (hmiss : alookup s0.adapters k = none)
    (a : Nat) (s1 : RegState)
    (hrun : newAdapterWithContext env (n + 1) s0 id wd args = (.ok a, s1)) :
    validateRequiredDeps z.fields (fieldsOf s1 a) = .ok () ∧
    (∀ kn,
      (alookup ((mergeDeps
          (match im with | none => none | some mh => mh.dependencies)
          (some (findStructDeps z.fields))).getD []) kn).isSome →
      getField s1 a (toCapWords kn) ≠ none) := by
  simp only [newAdapterWithContext, hprep, hmiss] at hrun
  have hrun' : constructNew (newAdapterWithContext env n) z id k rwd m im s0 =
      (.ok a, s1) := hrun
  have ha : a = s0.nextId :=
    newAdapter_ok_fresh env n s0 id wd args z m im rwd k hprep hmiss a s1
      (by simp only [newAdapterWithContext, hprep, hmiss]; exact hrun)
  have hsomeAlloc : (alookup (allocState z id k s0).instances s0.nextId).isSome = true := by
    simp [allocState, alookup]
  have hgo := constructGo_sets (newAdapterWithContext_step env n) z id rwd m im
    s0.nextId (allocState z id k s0) (Nat.lt_succ_self _) hsomeAlloc a
    (by
      have : constructGo (newAdapterWithContext env n) z id rwd m im s0.nextId
          (allocState z id k s0) = (.ok a, s1) := hrun'
      rw [this])
  have hgoeq : constructGo (newAdapterWithContext env n) z id rwd m im s0.nextId
      (allocState z id k s0) = (.ok a, s1) := hrun'
  rw [hgoeq] at hgo
  rw [ha]
  exact hgo

/-- C6 counterexample: the adapter's field carries the multi-token mandatory
tag `",required"`; no dependency fills it, yet construction *succeeds* and
returns the instance with the field still nil — `findStructDeps` ignores the
tag (empty first token) and `validateRequiredDeps` only checks tags that are
exactly the string "required", refuting the claim that such a field causes a
missing-required failure. -/
theorem validate_required_multitoken_counterexample :
    (NewAdapter envC6x 1 regState0 "iq" []).1 = .ok 0 ∧
    getField (NewAdapter envC6x 1 regState0 "iq" []).2 0 "Dep" = none ∧
    validateRequiredDeps zC6x.fields
      (fieldsOf (NewAdapter envC6x 1 regState0 "iq" []).2 0) = .ok () := by decide

/-- C6 (amended): a field is validated as mandatory only when its `core` tag
is exactly the single token "required": (a) `validateRequiredDeps` fails
with a missing-required error naming the first such field that is still
nil; and (b) a construction request that is served by a fresh construction
and succeeds never returns an instance with a nil mandatory field — fields
tagged "required" were validated non-nil, and exported fields whose
(trimmed, comma-split) tag infers an adapter id — which covers every
multi-token tag with a non-empty first token, "required" later tokens
included — had their derived field injected. -/
theorem validate_and_inject_required_fields :
    (∀ (fields : List FieldSpec) (vals : List (String × Option Nat)),
      (∃ f ∈ fields, f.tag = "required" ∧ (alookup vals f.name).getD none = none) →
      ∃ g ∈ fields, g.tag = "required" ∧ (alookup vals g.name).getD none = none ∧
        validateRequiredDeps fields vals = .error (.missingRequired g.name)) ∧
    (∀ (env : Env) (n : Nat) (s0 : RegState) (id wd : String) (args : List String)
      (z : FactorySpec) (m im : Option MetaHeader) (rwd k : String) (a : Nat)
      (s1 : RegState),
      prep env id wd args = .ok (z, m, im, rwd, k) →
      alookup s0.adapters k = none →
      newAdapterWithContext env (n + 1) s0 id wd args = (.ok a, s1) →
      (∀ f ∈ z.fields, f.tag = "required" → getField s1 a f.name ≠ none) ∧
      (∀ f ∈ z.fields, f.exported = true → trimSpace f.tag ≠ "" →
        tagDepAdapter (trimSpace f.tag) ≠ "" →
        getField s1 a (toCapWords f.name) ≠ none)) := by
  constructor
  · exact validateRequiredDeps_names_field
  · intro env n s0 id wd args z m im rwd k a s1 hprep hmiss hrun
    have hf := newAdapter_fresh_fields env n s0 id wd args z m im rwd k hprep hmiss a s1
      hrun
    constructor
    · intro f hfm htag
      rw [getField_eq_fieldsOf]
      exact validateRequiredDeps_ok_spec z.fields (fieldsOf s1 a) hf.1 f hfm htag
    · intro f hfm hexp htrim hinf
      exact hf.2 f.name
        (mergeDeps_inferred_mem _ (findStructDeps z.fields) f.name
          (findStructDeps_mem z.fields f hfm hexp htrim hinf))

theorem validate_and_inject_required_fields_witness :
    getField (NewAdapter envC6 3 regState0 "par2" []).2 0 "Req" ≠ none ∧
    getField (NewAdapter envC6 3 regState0 "par2" []).2 0 "Provider" ≠ none := by
  have h := validate_and_inject_required_fields
  have hrun : newAdapterWithContext envC6 (2 + 1) regState0 "par2" "" [] =
      (.ok 0, (NewAdapter envC6 3 regState0 "par2" []).2) := by decide
  have h2 := h.2 envC6 2 regState0 "par2" "" [] zC6
    (some { name := "par2", dependencies := some [("Req", { adapter := "dep-x" })] })
    none "" "par2" 0 (NewAdapter envC6 3 regState0 "par2" []).2
    (by rfl) (by decide) hrun
  constructor
  · exact h2.1 { name := "Req", tag := "required" } (by simp [zC6]) (by rfl)
  · have := h2.2 { name := "Provider", tag := "dep-x,required" } (by simp [zC6])
      (by rfl) (by decide) (by decide)
    rw [show toCapWords "Provider" = "Provider" from by decide] at this
    exact this

/-- C5 (amended): within one injection pass, `mergeDeps` gives every
dependency key that the config map declares its declared `DepRef` — the
inferred entry for the same key is discarded — and keys with no declared
entry fall back to the field-tag-inferred entry.  (Across the two passes
the later, item-level pass re-injects from its own merge result, so a key
declared only at adapter level and also inferred ends up re-injected from
the inferred entry; see the counterexample.) -/
theorem mergeDeps_declared_wins (config inferred : List (String × DepRef)) (k : String) :
    (∀ ref, alookup config k = some ref →
      alookup ((mergeDeps (some config) (some inferred)).getD []) k = some ref) ∧
    (alookup config k = none →
      alookup ((mergeDeps (some config) (some inferred)).getD []) k =
        alookup inferred k) := by
  rw [mergeDeps_eq_fold]
  simp only [Option.getD_some]
  exact ⟨fun ref h => mergeFold_preserves k ref inferred config h,
         fun h => mergeFold_absent k inferred config h⟩

theorem mergeDeps_declared_wins_witness :
    alookup ((mergeDeps
        (some [("Provider", ({ adapter := "dep-b" } : DepRef))])
        (some [("Provider", { adapter := "dep-a" }),
               ("Other", { adapter := "dep-c" })])).getD [])
      "Provider" = some { adapter := "dep-b" } ∧
    alookup ((mergeDeps
        (some [("Provider", ({ adapter := "dep-b" } : DepRef))])
        (some [("Provider", { adapter := "dep-a" }),
               ("Other", { adapter := "dep-c" })])).getD [])
      "Other" = some { adapter := "dep-c" } := by
  constructor
  · exact (mergeDeps_declared_wins [("Provider", { adapter := "dep-b" })]
      [("Provider", { adapter := "dep-a" }), ("Other", { adapter := "dep-c" })]
      "Provider").1 { adapter := "dep-b" } (by decide)
  · exact ((mergeDeps_declared_wins [("Provider", { adapter := "dep-b" })]
      [("Provider", { adapter := "dep-a" }), ("Other", { adapter := "dep-c" })]
      "Other").2 (by decide)).trans (by decide)

/-- C5 counterexample: the declared (adapter-level) `DepRef` for key
`Provider` names `dep-b`, whose instance gets id 1 and is injected by the
first pass; but the second (item-level) pass — running with no item header —
re-merges against the field-tag-inferred map alone and re-injects the
inferred `dep-a` (instance 2) into the same field, so at the end of
construction the injected dependency is the inferred one, not the declared
one — refuting the claim "across both injection passes". -/
theorem dep_second_pass_overrides_declared_counterexample :
    (NewAdapter envC5 4 regState0 "par" []).1 = .ok 0 ∧
    alookup (NewAdapter envC5 4 regState0 "par" []).2.adapters "dep-b" = some 1 ∧
    alookup (NewAdapter envC5 4 regState0 "par" []).2.adapters "dep-a" = some 2 ∧
    getField (NewAdapter envC5 4 regState0 "par" []).2 0 "Provider" = some 2 ∧
    getField (NewAdapter envC5 4 regState0 "par" []).2 0 "Provider" ≠ some 1 := by
  decide

/-- C9 counterexample: a single-token tag `REQUIRED` is not the literal word
"required", yet `findStructDeps` infers no `DepRef` from it — the source
compares the token with `strings.EqualFold`, i.e. case-insensitively,
refuting the claim's "unless the token is the literal \x22required\x22". -/
theorem findStructDeps_casefold_counterexample :
    findStructDeps [{ name := "F", tag := "REQUIRED" }] = [] ∧
    "REQUIRED" ≠ "required" := by decide

/-- C9 (amended): dependency inference from a `core` tag on an exported
field: with two or more comma-separated tokens the adapter id is the trimmed
first token — even when a later token is "required" — except that an empty
first token infers nothing; a single token is the adapter id unless it
equals "required" up to case folding, in which case nothing is inferred;
and `findStructDeps` processes the fields independently in order. -/
theorem findStructDeps_tag_rules :
    (∀ (f : FieldSpec) (rest : List FieldSpec),
      findStructDeps (f :: rest) = findStructDeps [f] ++ findStructDeps rest) ∧
    (∀ f : FieldSpec, f.exported = true → ∀ p q more,
      splitComma (trimSpace f.tag) = p :: q :: more → trimSpace p ≠ "" →
      findStructDeps [f] = [(f.name, { adapter := trimSpace p })]) ∧
    (∀ f : FieldSpec, f.exported = true → ∀ p q more,
      splitComma (trimSpace f.tag) = p :: q :: more → trimSpace p = "" →
      findStructDeps [f] = []) ∧
    (∀ f : FieldSpec, f.exported = true → ∀ p,
      splitComma (trimSpace f.tag) = [p] → trimSpace p ≠ "" →
      ¬ equalFold (trimSpace p) "required" →
      findStructDeps [f] = [(f.name, { adapter := trimSpace p })]) ∧
    (∀ f : FieldSpec, f.exported = true → ∀ p,
      splitComma (trimSpace f.tag) = [p] → equalFold (trimSpace p) "required" →
      findStructDeps [f] = []) := by
  have hempty : splitComma "" = [""] := by decide
  refine ⟨?_, ?_, ?_, ?_, ?_⟩
  · intro f rest
    simp only [findStructDeps]
    by_cases h1 : ¬ f.exported
    · rw [if_pos h1, if_pos h1]
      exact Eq.refl _
    · rw [if_neg h1, if_neg h1]
      by_cases h2 : trimSpace f.tag = ""
      · rw [if_pos h2, if_pos h2]
        exact Eq.refl _
      · rw [if_neg h2, if_neg h2]
        by_cases h3 : tagDepAdapter (trimSpace f.tag) = ""
        · rw [if_pos h3, if_pos h3]
          exact Eq.refl _
        · rw [if_neg h3, if_neg h3]
          exact Eq.refl _
  · intro f hexp p q more hsplit hp
    have htag : trimSpace f.tag ≠ "" := by
      intro h0
      rw [h0, hempty] at hsplit
      cases hsplit
    have hada : tagDepAdapter (trimSpace f.tag) = trimSpace p := by
      unfold tagDepAdapter
      rw [hsplit]
    simp only [findStructDeps, hexp, not_true_eq_false, if_false]
    rw [if_neg htag, hada, if_neg hp]
  · intro f hexp p q more hsplit hp
    have htag : trimSpace f.tag ≠ "" := by
      intro h0
      rw [h0, hempty] at hsplit
      cases hsplit
    have hada : tagDepAdapter (trimSpace f.tag) = trimSpace p := by
      unfold tagDepAdapter
      rw [hsplit]
    simp only [findStructDeps, hexp, not_true_eq_false, if_false]
    rw [if_neg htag, hada, if_pos hp]
  · intro f hexp p hsplit hp hreq
    by_cases htag : trimSpace f.tag = ""
    · rw [htag, hempty] at hsplit
      cases hsplit
      exact absurd (Eq.refl _) hp
    · have hada : tagDepAdapter (trimSpace f.tag) = trimSpace p := by
        unfold tagDepAdapter
        rw [hsplit]
        simp only [if_neg hreq]
      simp only [findStructDeps, hexp, not_true_eq_false, if_false]
      rw [if_neg htag, hada, if_neg hp]
  · intro f hexp p hsplit hreq
    by_cases htag : trimSpace f.tag = ""
    · simp only [findStructDeps, hexp, not_true_eq_false, if_false]
      rw [if_pos htag]
    · have hada : tagDepAdapter (trimSpace f.tag) = "" := by
        unfold tagDepAdapter
        rw [hsplit]
        simp only [if_pos hreq]
      simp only [findStructDeps, hexp, not_true_eq_false, if_false]
      rw [if_neg htag, hada, if_pos (Eq.refl "")]

theorem findStructDeps_tag_rules_witness :
    findStructDeps [{ name := "A", tag := "dep-a,required" }] =
      [("A", { adapter := "dep-a" })] ∧
    findStructDeps [{ name := "B", tag := "dep-b" }] =
      [("B", { adapter := "dep-b" })] ∧
    findStructDeps [{ name := "C", tag := "required" }] = [] ∧
    findStructDeps [{ name := "D", tag := ",required" }] = [] ∧
    findStructDeps
        [({ name := "A", tag := "dep-a,required" } : FieldSpec),
         { name := "C", tag := "required" }] =
      findStructDeps [({ name := "A", tag := "dep-a,required" } : FieldSpec)] ++
        findStructDeps [({ name := "C", tag := "required" } : FieldSpec)] := by
  refine ⟨?_, ?_, ?_, ?_, ?_⟩
  · exact (findStructDeps_tag_rules.2.1 { name := "A", tag := "dep-a,required" }
      (by rfl) "dep-a" "required" ([] : List String) (by decide) (by decide)).trans
      (by decide)
  · exact (findStructDeps_tag_rules.2.2.2.1 { name := "B", tag := "dep-b" }
      (by rfl) "dep-b" (by decide) (by decide) (by decide)).trans (by decide)
  · exact findStructDeps_tag_rules.2.2.2.2 { name := "C", tag := "required" }
      (by rfl) "required" (by decide) (by decide)
  · exact findStructDeps_tag_rules.2.2.1 { name := "D", tag := ",required" }
      (by rfl) "" "required" ([] : List String) (by decide) (by decide)
  · exact findStructDeps_tag_rules.1 { name := "A", tag := "dep-a,required" }
      [{ name := "C", tag := "required" }]

/-- C7: for every name, `SearchMap.Resolve` tries the full-key index first and
a full-key hit succeeds unambiguously, regardless of the short-key index; only
when the full key is absent is the short-key index consulted, where zero
matching paths (no entry, or an empty path list) yields a not-found error
(recognised by `errors.Is(err, os.ErrNotExist)`), exactly one match returns
that path, and two or more matches yields an ambiguous-reference error
listing all candidate paths. -/
theorem resolve_full_key_priority_then_short_cardinality
    (sm : SearchMap) (name : String) :
    (∀ p, alookup sm.full name = some p → sm.Resolve name = .ok p) ∧
    (alookup sm.full name = none →
      ((alookup sm.short name = none ∨
          alookup sm.short name = some ([] : List String)) →
        sm.Resolve name = .error (.notExist name) ∧
          (Err.notExist name).isNotExist = true) ∧
      (∀ p, alookup sm.short name = some [p] → sm.Resolve name = .ok p) ∧
      (∀ p q rest, alookup sm.short name = some (p :: q :: rest) →
        sm.Resolve name = .error (.ambiguous name (p :: q :: rest)))) := by
  constructor
  · intro p hfull
    unfold SearchMap.Resolve
    rw [hfull]
  · intro hfull
    refine ⟨?_, ?_, ?_⟩
    · intro hshort
      refine ⟨?_, rfl⟩
      unfold SearchMap.Resolve
      rw [hfull]
      rcases hshort with h | h
      · rw [h]
      · rw [h]
    · intro p hshort
      unfold SearchMap.Resolve
      rw [hfull, hshort]
    · intro p q rest hshort
      unfold SearchMap.Resolve
      rw [hfull, hshort]

theorem resolve_full_key_priority_then_short_cardinality_witness :
    smC7.Resolve "env/dev" = .ok "/r/env/dev.json" ∧
    smC7.Resolve "dev" =
      .error (.ambiguous "dev" ["/r/env/dev.json", "/r/other/dev.json"]) ∧
    smC7.Resolve "one" = .ok "/r/one.json" ∧
    smC7.Resolve "zero" = .error (.notExist "zero") ∧
    smC7.Resolve "missing" = .error (.notExist "missing") :=
  ⟨(resolve_full_key_priority_then_short_cardinality smC7 "env/dev").1
      "/r/env/dev.json" (by decide),
   ((resolve_full_key_priority_then_short_cardinality smC7 "dev").2
      (by decide)).2.2 "/r/env/dev.json" "/r/other/dev.json" [] (by decide),
   ((resolve_full_key_priority_then_short_cardinality smC7 "one").2
      (by decide)).2.1 "/r/one.json" (by decide),
   (((resolve_full_key_priority_then_short_cardinality smC7 "zero").2
      (by decide)).1 (Or.inr (by decide))).1,
   (((resolve_full_key_priority_then_short_cardinality smC7 "missing").2
      (by decide)).1 (Or.inl (by decide))).1⟩

theorem splitCharsOn_sep_not_mem (sep : Char) (cs : List Char) :
    ∀ x ∈ splitCharsOn sep cs, sep ∉ x := by
  induction cs with
  | nil =>
    intro x hx
    simp only [splitCharsOn, List.mem_singleton] at hx
    subst hx
    exact List.not_mem_nil sep
  | cons c rest ih =>
    intro x hx
    simp only [splitCharsOn] at hx
    by_cases hc : c = sep
    · rw [if_pos hc] at hx
      rcases List.mem_cons.mp hx with h | h
      · subst h
        exact List.not_mem_nil sep
      · exact ih x h
    · rw [if_neg hc] at hx
      rcases hr : splitCharsOn sep rest with _ | ⟨h0, t⟩
      · rw [hr] at hx
        replace hx : x ∈ [[c]] := hx
        simp only [List.mem_singleton] at hx
        subst hx
        intro hm
        exact hc (List.mem_singleton.mp hm).symm
      · rw [hr] at hx
        replace hx : x ∈ (c :: h0) :: t := hx
        rcases List.mem_cons.mp hx with h | h
        · subst h
          intro hm
          rcases List.mem_cons.mp hm with h1 | h1
          · exact hc h1.symm
          · exact ih h0 (hr.symm ▸ List.mem_cons_self h0 t) h1
        · exact ih x (hr.symm ▸ List.mem_cons_of_mem (h0, t).1 h)

theorem splitCharsOn_no_sep (sep : Char) (cs : List Char) (h : sep ∉ cs) :
    splitCharsOn sep cs = [cs] := by
  induction cs with
  | nil => rfl
  | cons c rest ih =>
    have hc : ¬ c = sep := fun hh => h (by rw [hh]; exact List.mem_cons_self sep rest)
    have hrest : sep ∉ rest := fun hh => h (List.mem_cons_of_mem c hh)
    simp only [splitCharsOn]
    rw [if_neg hc, ih hrest]

theorem splitCharsOn_append_sep (sep : Char) (s t : List Char) (h : sep ∉ s) :
    splitCharsOn sep (s ++ sep :: t) = s :: splitCharsOn sep t := by
  induction s with
  | nil =>
    simp only [List.nil_append, splitCharsOn]
    rw [if_pos trivial]
  | cons c s' ih =>
    have hc : ¬ c = sep := fun hh => h (by rw [hh]; exact List.mem_cons_self sep s')
    have hs' : sep ∉ s' := fun hh => h (List.mem_cons_of_mem c hh)
    have hstep : splitCharsOn sep ((c :: s') ++ sep :: t) =
        splitCharsOn sep (c :: (s' ++ sep :: t)) := rfl
    rw [hstep]
    simp only [splitCharsOn]
    rw [if_neg hc, ih hs']

theorem splitSlash_joinSegs (segs : List (List Char)) :
    segs ≠ [] → (∀ x ∈ segs, '/' ∉ x) → splitSlash (joinSegs segs) = segs := by
  induction segs with
  | nil =>
    intro hne _
    exact absurd rfl hne
  | cons s segs ih =>
    intro _ hg
    cases segs with
    | nil =>
      unfold splitSlash joinSegs
      exact splitCharsOn_no_sep '/' s (hg s (List.mem_cons_self s []))
    | cons s2 rest =>
      unfold splitSlash at ih ⊢
      have hj : joinSegs (s :: s2 :: rest) = s ++ '/' :: joinSegs (s2 :: rest) := rfl
      rw [hj, splitCharsOn_append_sep '/' s (joinSegs (s2 :: rest))
          (hg s (List.mem_cons_self s (s2 :: rest))),
        ih (List.cons_ne_nil s2 rest) (fun y hy => hg y (List.mem_cons_of_mem s hy))]

theorem cleanPush_nil_seg (rooted : Bool) (acc : List (List Char)) :
    cleanPush rooted acc [] = acc := rfl

theorem cleanSegs_cons_nil (rooted : Bool) (segs : List (List Char)) :
    cleanSegs rooted ([] :: segs) = cleanSegs rooted segs := by
  unfold cleanSegs
  rw [List.foldl_cons, cleanPush_nil_seg]

theorem cleanPush_good (acc : List (List Char)) (seg : List Char)
    (hacc : ∀ x ∈ acc, goodSeg x) (hseg : '/' ∉ seg) :
    ∀ x ∈ cleanPush true acc seg, goodSeg x := by
  intro x hx
  unfold cleanPush at hx
  by_cases h1 : seg = [] ∨ seg = ['.']
  · rw [if_pos h1] at hx
    exact hacc x hx
  · rw [if_neg h1] at hx
    by_cases h2 : seg = ['.', '.']
    · rw [if_pos h2] at hx
      cases acc with
      | nil =>
        replace hx : x ∈ ([] : List (List Char)) := hx
        exact absurd hx (List.not_mem_nil x)
      | cons t rest =>
        replace hx : x ∈ (if t = ['.', '.'] then seg :: t :: rest else rest) := hx
        have ht : goodSeg t := hacc t (List.mem_cons_self t rest)
        rw [if_neg ht.2.2.1] at hx
        exact hacc x (List.mem_cons_of_mem t hx)
    · rw [if_neg h2] at hx
      rcases List.mem_cons.mp hx with h | h
      · subst h
        push_neg at h1
        exact ⟨h1.1, h1.2, h2, hseg⟩
      · exact hacc x h

theorem foldl_cleanPush_good (segs : List (List Char)) :
    ∀ acc : List (List Char), (∀ x ∈ acc, goodSeg x) → (∀ x ∈ segs, '/' ∉ x) →
      ∀ x ∈ segs.foldl (cleanPush true) acc, goodSeg x := by
  induction segs with
  | nil =>
    intro acc hacc _ x hx
    exact hacc x hx
  | cons s segs ih =>
    intro acc hacc hsegs x hx
    rw [List.foldl_cons] at hx
    exact ih (cleanPush true acc s)
      (cleanPush_good acc s hacc (hsegs s (List.mem_cons_self s segs)))
      (fun y hy => hsegs y (List.mem_cons_of_mem s hy)) x hx

theorem cleanSegs_good (segs : List (List Char)) (h : ∀ x ∈ segs, '/' ∉ x) :
    ∀ x ∈ cleanSegs true segs, goodSeg x := by
  intro x hx
  unfold cleanSegs at hx
  rw [List.mem_reverse] at hx
  exact foldl_cleanPush_good segs []
    (fun y hy => absurd hy (List.not_mem_nil y)) h x hx

theorem cleanPush_push (rooted : Bool) (acc : List (List Char)) (seg : List Char)
    (hg : goodSeg seg) : cleanPush rooted acc seg = seg :: acc := by
  unfold cleanPush
  rw [if_neg (fun h => h.elim hg.1 hg.2.1), if_neg hg.2.2.1]

theorem foldl_cleanPush_id (rooted : Bool) (segs : List (List Char)) :
    ∀ acc, (∀ x ∈ segs, goodSeg x) →
      segs.foldl (cleanPush rooted) acc = segs.reverse ++ acc := by
  induction segs with
  | nil =>
    intro acc _
    rfl
  | cons s segs ih =>
    intro acc hg
    rw [List.foldl_cons, cleanPush_push rooted acc s (hg s (List.mem_cons_self s segs)),
      ih (s :: acc) (fun y hy => hg y (List.mem_cons_of_mem s hy))]
    simp [List.append_assoc]

theorem cleanSegs_id_of_good (rooted : Bool) (segs : List (List Char))
    (h : ∀ x ∈ segs, goodSeg x) : cleanSegs rooted segs = segs := by
  unfold cleanSegs
  rw [foldl_cleanPush_id rooted segs [] h]
  simp

theorem goClean_rooted_eq (cs : List Char) :
    goClean (String.mk ('/' :: cs)) =
      String.mk ('/' :: joinSegs (cleanSegs true (splitSlash ('/' :: cs)))) := rfl

theorem splitSlash_cons_sep (cs : List Char) :
    splitSlash ('/' :: cs) = [] :: splitSlash cs := rfl

theorem isAbs_mk_slash (cs : List Char) : isAbs (String.mk ('/' :: cs)) = true := rfl

theorem goClean_idem_rooted (cs : List Char) :
    goClean (goClean (String.mk ('/' :: cs))) = goClean (String.mk ('/' :: cs)) := by
  have hgood : ∀ x ∈ cleanSegs true (splitSlash ('/' :: cs)), goodSeg x :=
    cleanSegs_good _ (splitCharsOn_sep_not_mem '/' ('/' :: cs))
  rw [goClean_rooted_eq cs]
  generalize hS : cleanSegs true (splitSlash ('/' :: cs)) = SEGS at hgood ⊢
  rw [goClean_rooted_eq (joinSegs SEGS), splitSlash_cons_sep (joinSegs SEGS)]
  cases SEGS with
  | nil => rfl
  | cons s rest =>
    rw [splitSlash_joinSegs (s :: rest) (List.cons_ne_nil s rest)
        (fun y hy => (hgood y hy).2.2.2),
      cleanSegs_cons_nil true (s :: rest),
      cleanSegs_id_of_good true (s :: rest) hgood]

theorem isAbs_goClean_rooted (cs : List Char) :
    isAbs (goClean (String.mk ('/' :: cs))) = true := by
  rw [goClean_rooted_eq cs]
  exact isAbs_mk_slash _

theorem exists_slash_data_of_isAbs (p : String) (h : isAbs p = true) :
    ∃ rest, p.data = '/' :: rest := by
  unfold isAbs at h
  rcases hd : p.data with _ | ⟨c, rest⟩
  · rw [hd] at h
    exact absurd h Bool.false_ne_true
  · rw [hd] at h
    exact ⟨rest, by rw [of_decide_eq_true h]⟩

theorem goClean_idem_abs (p : String) (h : isAbs p = true) :
    goClean (goClean p) = goClean p := by
  obtain ⟨rest, hd⟩ := exists_slash_data_of_isAbs p h
  have hp : p = String.mk ('/' :: rest) := by
    cases p with
    | mk d =>
      have hd' : d = '/' :: rest := hd
      subst hd'
      rfl
  rw [hp]
  exact goClean_idem_rooted rest

theorem ne_empty_of_isAbs (p : String) (h : isAbs p = true) : p ≠ "" := by
  obtain ⟨rest, hd⟩ := exists_slash_data_of_isAbs p h
  intro he
  rw [he] at hd
  have hd' : ([] : List Char) = '/' :: rest := hd
  exact List.noConfusion hd'

theorem dropWhile_ne_slash_append (l : List Char) :
    ∃ t, ((l ++ ['/']).dropWhile (fun c => c ≠ '/')).reverse = '/' :: t := by
  induction l with
  | nil => exact ⟨[], rfl⟩
  | cons c l ih =>
    by_cases hc : c = '/'
    · subst hc
      refine ⟨l.reverse ++ ['/'], ?_⟩
      rw [List.cons_append, List.dropWhile_cons]
      simp
    · obtain ⟨t, ht⟩ := ih
      refine ⟨t, ?_⟩
      rw [List.cons_append, List.dropWhile_cons, if_pos (by simp [hc])]
      exact ht

theorem uptoLastSlash_rooted (rest : List Char) :
    ∃ t, uptoLastSlash ('/' :: rest) = '/' :: t := by
  unfold uptoLastSlash
  rw [List.reverse_cons]
  exact dropWhile_ne_slash_append rest.reverse

theorem isAbs_goDir (p : String) (h : isAbs p = true) : isAbs (goDir p) = true := by
  obtain ⟨rest, hd⟩ := exists_slash_data_of_isAbs p h
  unfold goDir
  rw [hd]
  obtain ⟨t, ht⟩ := uptoLastSlash_rooted rest
  rw [ht]
  exact isAbs_goClean_rooted t

theorem goJoin_abs_eq (a b : String) (ha : isAbs a = true) (hb : b ≠ "") :
    goJoin a b = goClean (String.mk (a.data ++ '/' :: b.data)) := by
  unfold goJoin
  rw [if_neg (ne_empty_of_isAbs a ha), if_neg hb]

theorem isAbs_goJoin (a b : String) (ha : isAbs a = true) (hb : b ≠ "") :
    isAbs (goJoin a b) = true := by
  rw [goJoin_abs_eq a b ha hb]
  obtain ⟨rest, hd⟩ := exists_slash_data_of_isAbs a ha
  rw [hd, List.cons_append]
  exact isAbs_goClean_rooted _

theorem goClean_goJoin_abs (a b : String) (ha : isAbs a = true) (hb : b ≠ "") :
    goClean (goJoin a b) = goJoin a b := by
  rw [goJoin_abs_eq a b ha hb]
  obtain ⟨rest, hd⟩ := exists_slash_data_of_isAbs a ha
  rw [hd, List.cons_append]
  exact goClean_idem_rooted _

theorem goAbs_of_isAbs (cwd p : String) (h : isAbs p = true) :
    goAbs cwd p = goClean p := by
  simp [goAbs, h]

/-- C8: for a config file at an absolute path `p` whose header the loader
reads and decodes successfully and whose resolved name has no
`CORE_CONTEXT_MAP` override, `SearchMap.Load` anchors a relative context at
the config file's own directory: the returned header's context is
`Join(Dir(p), context)` (which is itself cleaned and absolute), independent of
the process working directory passed for `filepath.Abs`; an already-absolute
context is returned unchanged. -/
theorem load_anchors_relative_context_at_file_dir
    (sm : SearchMap) (fs : String → FileData) (cm : List (String × String))
    (cwd cwd' : String) (name p : String) (h : MetaHeader) (verbose : Bool)
    (hres : sm.Resolve name = .ok p) (habs : isAbs p = true)
    (hfs : fs p = .good h)
    (hcm : alookup cm (if trimSpace h.name = "" then trimSuffix (goBase p) ".json"
      else h.name) = none) :
    (h.context ≠ "" → isAbs h.context = false →
      sm.Load fs cm cwd name verbose =
        .ok { h with
              name := if trimSpace h.name = "" then trimSuffix (goBase p) ".json"
                else h.name,
              context := goJoin (goDir p) h.context } ∧
      isAbs (goJoin (goDir p) h.context) = true ∧
      sm.Load fs cm cwd name verbose = sm.Load fs cm cwd' name verbose) ∧
    (isAbs h.context = true →
      sm.Load fs cm cwd name verbose =
        .ok { h with
              name := if trimSpace h.name = "" then trimSuffix (goBase p) ".json"
                else h.name,
              context := h.context }) := by
  have hdir : isAbs (goDir p) = true := isAbs_goDir p habs
  constructor
  · intro hne hrel
    have hj : isAbs (goJoin (goDir p) h.context) = true :=
      isAbs_goJoin _ _ hdir hne
    have hctx : ∀ w : String,
        goClean (goAbs w (goJoin (goDir p) h.context)) =
          goJoin (goDir p) h.context := by
      intro w
      rw [goAbs_of_isAbs w _ hj, goClean_goJoin_abs _ _ hdir hne,
        goClean_goJoin_abs _ _ hdir hne]
    have hload : ∀ w : String,
        sm.Load fs cm w name verbose =
          .ok { h with
                name := if trimSpace h.name = "" then trimSuffix (goBase p) ".json"
                  else h.name,
                context := goJoin (goDir p) h.context } := by
      intro w
      have hcond : h.context ≠ "" ∧ ¬ isAbs h.context = true := ⟨hne, by simp [hrel]⟩
      simp only [SearchMap.Load, hres, hfs, hcm]
      rw [if_pos hcond, hctx w]
    exact ⟨hload cwd, hj, (hload cwd).trans (hload cwd').symm⟩
  · intro hA
    have hcond : ¬ (h.context ≠ "" ∧ ¬ isAbs h.context = true) :=
      fun hcon => hcon.2 hA
    simp only [SearchMap.Load, hres, hfs, hcm]
    rw [if_neg hcond]

theorem load_anchors_relative_context_at_file_dir_witness :
    smC8.Load fsC8 [] "/w1" "env/it" false =
      .ok { hC8 with name := "it", context := "/r/ctx" } ∧
    smC8.Load fsC8 [] "/w1" "env/it" false =
      smC8.Load fsC8 [] "/w2" "env/it" false ∧
    smC8.Load fsC8 [] "/w1" "env/abs" false =
      .ok { hC8a with name := "named", context := "/abs/ctx" } := by
  have t1 := (load_anchors_relative_context_at_file_dir smC8 fsC8 [] "/w1" "/w2"
    "env/it" "/r/env/it.json" hC8 false (by decide) (by decide) (by decide)
    (by decide)).1 (by decide) (by decide)
  have t2 := (load_anchors_relative_context_at_file_dir smC8 fsC8 [] "/w1" "/w2"
    "env/abs" "/r/env/abs.json" hC8a false (by decide) (by decide) (by decide)
    (by decide)).2 (by decide)
  exact ⟨t1.1.trans (by decide), t1.2.2, t2.trans (by decide)⟩

/-! ## C10: sortedness, permutation stability, and the loading loop -/

theorem lexLEChars_total (a : List Char) :
    ∀ b, lexLEChars a b = true ∨ lexLEChars b a = true := by
  induction a with
  | nil =>
    intro b
    exact Or.inl rfl
  | cons x as ih =>
    intro b
    cases b with
    | nil => exact Or.inr rfl
    | cons y bs =>
      by_cases hxy : x.toNat < y.toNat
      · exact Or.inl (by simp [lexLEChars, hxy])
      · by_cases hyx : y.toNat < x.toNat
        · exact Or.inr (by simp [lexLEChars, hyx])
        · rcases ih bs with hle | hle
          · exact Or.inl (by simp [lexLEChars, hxy, hyx, hle])
          · exact Or.inr (by simp [lexLEChars, hxy, hyx, hle])

theorem lexLEChars_trans (a : List Char) :
    ∀ b c, lexLEChars a b = true → lexLEChars b c = true →
      lexLEChars a c = true := by
  induction a with
  | nil =>
    intro b c _ _
    rfl
  | cons x as ih =>
    intro b c hab hbc
    cases b with
    | nil => exact absurd hab (by simp [lexLEChars])
    | cons y bs =>
      cases c with
      | nil => exact absurd hbc (by simp [lexLEChars])
      | cons z cs =>
        simp only [lexLEChars] at hab hbc ⊢
        split_ifs at hab hbc ⊢ <;>
          first
          | rfl
          | (exact ih bs cs hab hbc)
          | (exfalso; omega)

theorem lexLEChars_antisymm (a : List Char) :
    ∀ b, lexLEChars a b = true → lexLEChars b a = true → a = b := by
  induction a with
  | nil =>
    intro b _ hba
    cases b with
    | nil => rfl
    | cons y bs => exact absurd hba (by simp [lexLEChars])
  | cons x as ih =>
    intro b hab hba
    cases b with
    | nil => exact absurd hab (by simp [lexLEChars])
    | cons y bs =>
      simp only [lexLEChars] at hab hba
      split_ifs at hab hba <;>
        first
        | (exfalso; omega)
        | (have hxy : x.toNat = y.toNat := by omega
           have hc : x = y := by
             rw [← Char.ofNat_toNat x, hxy, Char.ofNat_toNat y]
           rw [hc, ih bs hab hba])

theorem strLE_total (a b : String) : strLE a b = true ∨ strLE b a = true :=
  lexLEChars_total a.data b.data

theorem strLE_trans (a b c : String) (hab : strLE a b = true)
    (hbc : strLE b c = true) : strLE a c = true :=
  lexLEChars_trans a.data b.data c.data hab hbc

theorem strLE_antisymm (a b : String) (hab : strLE a b = true)
    (hba : strLE b a = true) : a = b :=
  congrArg String.mk (lexLEChars_antisymm a.data b.data hab hba)

theorem mem_orderedInsertStr (a : String) (l : List String) (x : String) :
    x ∈ orderedInsertStr a l ↔ x = a ∨ x ∈ l := by
  induction l with
  | nil => simp [orderedInsertStr]
  | cons b l ih =>
    unfold orderedInsertStr
    by_cases h : strLE a b = true
    · rw [if_pos h]
      simp only [List.mem_cons]
    · rw [if_neg h]
      simp only [List.mem_cons, ih]
      tauto

theorem pairwise_orderedInsertStr (a : String) (l : List String)
    (hl : List.Pairwise (fun x y => strLE x y = true) l) :
    List.Pairwise (fun x y => strLE x y = true) (orderedInsertStr a l) := by
  induction l with
  | nil => simp [orderedInsertStr]
  | cons b l ih =>
    unfold orderedInsertStr
    rcases List.pairwise_cons.mp hl with ⟨hb, hl'⟩
    by_cases h : strLE a b = true
    · rw [if_pos h]
      refine List.Pairwise.cons ?_ hl
      intro y hy
      rcases List.mem_cons.mp hy with rfl | hy'
      · exact h
      · exact strLE_trans a b y h (hb y hy')
    · rw [if_neg h]
      refine List.Pairwise.cons ?_ (ih hl')
      intro y hy
      rcases (mem_orderedInsertStr a l y).mp hy with rfl | hy'
      · rcases strLE_total y b with h' | h'
        · exact absurd h' h
        · exact h'
      · exact hb y hy'

theorem sortStrings_pairwise (l : List String) :
    List.Pairwise (fun x y => strLE x y = true) (sortStrings l) := by
  induction l with
  | nil => exact List.Pairwise.nil
  | cons a l ih => exact pairwise_orderedInsertStr a (sortStrings l) ih

theorem orderedInsertStr_perm (a : String) (l : List String) :
    (orderedInsertStr a l).Perm (a :: l) := by
  induction l with
  | nil => exact List.Perm.refl [a]
  | cons b l ih =>
    unfold orderedInsertStr
    by_cases h : strLE a b = true
    · rw [if_pos h]
    · rw [if_neg h]
      exact (ih.cons b).trans (List.Perm.swap a b l)

theorem sortStrings_perm (l : List String) : (sortStrings l).Perm l := by
  induction l with
  | nil => exact List.Perm.refl []
  | cons a l ih =>
    exact (orderedInsertStr_perm a (sortStrings l)).trans (ih.cons a)

theorem sortStrings_eq_of_perm (l1 l2 : List String) (h : l1.Perm l2) :
    sortStrings l1 = sortStrings l2 := by
  haveI : IsAntisymm String (fun x y => strLE x y = true) := ⟨strLE_antisymm⟩
  exact List.eq_of_perm_of_sorted
    ((sortStrings_perm l1).trans (h.trans (sortStrings_perm l2).symm))
    (sortStrings_pairwise l1) (sortStrings_pairwise l2)

theorem alookup_perm {α : Type} {l1 l2 : List (String × α)} (hperm : l1.Perm l2) :
    (l1.map Prod.fst).Nodup → ∀ k, alookup l1 k = alookup l2 k := by
  induction hperm with
  | nil =>
    intro _ k
    rfl
  | cons x hp ih =>
    intro hnd k
    obtain ⟨xk, xv⟩ := x
    have hnd' := hnd.of_cons
    simp only [alookup]
    by_cases hx : xk = k
    · rw [if_pos hx, if_pos hx]
    · rw [if_neg hx, if_neg hx]
      exact ih hnd' k
  | swap x y l =>
    intro hnd k
    obtain ⟨xk, xv⟩ := x
    obtain ⟨yk, yv⟩ := y
    have hnd2 : (yk :: xk :: l.map Prod.fst).Nodup := hnd
    have hne : yk ≠ xk := fun hcontra =>
      (List.nodup_cons.mp hnd2).1 (List.mem_cons.mpr (Or.inl hcontra))
    simp only [alookup]
    by_cases hx : xk = k <;> by_cases hy : yk = k
    · exact absurd (hy.trans hx.symm) hne
    · rw [if_neg hy, if_pos hx, if_pos hx]
    · rw [if_pos hy, if_neg hx, if_pos hy]
    · rw [if_neg hy, if_neg hx, if_neg hx, if_neg hy]
  | trans h1 _ ih1 ih2 =>
    intro hnd k
    exact (ih1 hnd k).trans (ih2 (((h1.map Prod.fst).nodup_iff).mp hnd) k)

theorem loadAllGo_ok_filterMap (sm : SearchMap) (fs : String → FileData)
    (cm : List (String × String)) (cwd : String) (aid : String)
    (ks : List String)
    (h : ∀ k ∈ ks, noFailLoad sm fs cm cwd k = true) :
    loadAllGo sm fs cm cwd aid ks = .ok (ks.filterMap (fun k =>
      match sm.Load fs cm cwd k false with
      | .ok m => if aid ≠ "" ∧ ¬ equalFold m.adapter aid then none else some m
      | .error _ => none)) := by
  induction ks with
  | nil => rfl
  | cons k ks ih =>
    have htail := ih (fun y hy => h y (List.mem_cons_of_mem k hy))
    cases hL : sm.Load fs cm cwd k false with
    | error e =>
      have he : e.isNotExist = true := by
        have hk := h k (List.mem_cons_self k ks)
        rw [noFailLoad, hL] at hk
        exact hk
      simp only [loadAllGo, hL, he, List.filterMap_cons, if_true]
      exact htail
    | ok m =>
      simp only [loadAllGo, hL, List.filterMap_cons, htail]
      by_cases hcond : aid ≠ "" ∧ ¬ equalFold m.adapter aid = true
      · rw [if_pos hcond, if_pos hcond]
      · rw [if_neg hcond, if_neg hcond]

theorem loadAllGo_filter_mem (sm : SearchMap) (fs : String → FileData)
    (cm : List (String × String)) (cwd : String) (aid : String)
    (ks : List String) :
    ∀ ms, loadAllGo sm fs cm cwd aid ks = .ok ms →
      ∀ m ∈ ms, aid ≠ "" → equalFold m.adapter aid = true := by
  induction ks with
  | nil =>
    intro ms h m hm _
    cases h
    exact absurd hm (List.not_mem_nil m)
  | cons k ks ih =>
    intro ms h m hm haid
    cases hL : sm.Load fs cm cwd k false with
    | error e =>
      simp only [loadAllGo, hL] at h
      by_cases he : e.isNotExist = true
      · rw [if_pos he] at h
        exact ih ms h m hm haid
      · rw [if_neg he] at h
        cases h
    | ok m' =>
      simp only [loadAllGo, hL] at h
      cases hT : loadAllGo sm fs cm cwd aid ks with
      | error e =>
        simp only [hT] at h
        cases h
      | ok tail =>
        simp only [hT] at h
        by_cases hcond : aid ≠ "" ∧ ¬ equalFold m'.adapter aid = true
        · rw [if_pos hcond] at h
          cases h
          exact ih ms hT m hm haid
        · rw [if_neg hcond] at h
          cases h
          rcases List.mem_cons.mp hm with rfl | hm'
          · rcases not_and_or.mp hcond with h1 | h1
            · exact absurd (not_not.mp h1) haid
            · exact not_not.mp h1
          · exact ih tail hT m hm' haid

theorem resolve_congr (sm sm' : SearchMap)
    (hf : ∀ nm, alookup sm.full nm = alookup sm'.full nm)
    (hs : sm.short = sm'.short) (name : String) :
    sm.Resolve name = sm'.Resolve name := by
  unfold SearchMap.Resolve
  rw [hf name, hs]

theorem load_congr (sm sm' : SearchMap) (fs : String → FileData)
    (cm : List (String × String)) (cwd : String) (v : Bool) (name : String)
    (h : sm.Resolve name = sm'.Resolve name) :
    sm.Load fs cm cwd name v = sm'.Load fs cm cwd name v := by
  unfold SearchMap.Load
  rw [h]

theorem loadAllGo_congr (sm sm' : SearchMap) (fs : String → FileData)
    (cm : List (String × String)) (cwd : String) (aid : String)
    (h : ∀ name, sm.Load fs cm cwd name false = sm'.Load fs cm cwd name false) :
    ∀ ks, loadAllGo sm fs cm cwd aid ks = loadAllGo sm' fs cm cwd aid ks := by
  intro ks
  induction ks with
  | nil => rfl
  | cons k ks ih =>
    simp only [loadAllGo, h k, ih]

/-- C10: `SearchMap.LoadAll` runs the loading loop over the lexicographically
sorted full-key list (sorted under the byte order of `sort.Strings` and a
permutation of the index keys); when every indexed entry either loads or
fails with the tolerated not-exist error, the batch succeeds and returns
exactly the headers of the sorted keys, with vanished files skipped and
non-matching adapters dropped; the result is stable across re-indexings that
permute the full-key table (the Go map iteration order), given the distinct
keys a map guarantees; and with a non-empty filter every returned header's
adapter id matches it case-insensitively. -/
theorem loadAll_sorted_stable_skip_filter
    (sm sm' : SearchMap) (fs : String → FileData) (cm : List (String × String))
    (cwd aid : String) :
    (sm.LoadAll fs cm cwd aid =
        loadAllGo sm fs cm cwd aid (sortStrings (sm.full.map Prod.fst)) ∧
      List.Pairwise (fun x y => strLE x y = true)
        (sortStrings (sm.full.map Prod.fst)) ∧
      (sortStrings (sm.full.map Prod.fst)).Perm (sm.full.map Prod.fst)) ∧
    ((∀ k ∈ sortStrings (sm.full.map Prod.fst),
        noFailLoad sm fs cm cwd k = true) →
      sm.LoadAll fs cm cwd aid =
        .ok ((sortStrings (sm.full.map Prod.fst)).filterMap
          (fun k => match sm.Load fs cm cwd k false with
            | .ok m =>
              if aid ≠ "" ∧ ¬ equalFold m.adapter aid then none else some m
            | .error _ => none))) ∧
    (sm.full.Perm sm'.full → (sm.full.map Prod.fst).Nodup →
      sm.short = sm'.short →
      sm.LoadAll fs cm cwd aid = sm'.LoadAll fs cm cwd aid) ∧
    (∀ ms, sm.LoadAll fs cm cwd aid = .ok ms →
      ∀ m ∈ ms, aid ≠ "" → equalFold m.adapter aid = true) := by
  refine ⟨⟨rfl, sortStrings_pairwise _, sortStrings_perm _⟩, ?_, ?_, ?_⟩
  · intro hok
    exact loadAllGo_ok_filterMap sm fs cm cwd aid _ hok
  · intro hperm hnd hsh
    have hload : ∀ name,
        sm.Load fs cm cwd name false = sm'.Load fs cm cwd name false :=
      fun name => load_congr sm sm' fs cm cwd false name
        (resolve_congr sm sm' (alookup_perm hperm hnd) hsh name)
    unfold SearchMap.LoadAll
    rw [loadAllGo_congr sm sm' fs cm cwd aid hload,
      sortStrings_eq_of_perm _ _ (hperm.map Prod.fst)]
  · intro ms hms m hm haid
    exact loadAllGo_filter_mem sm fs cm cwd aid _ ms hms m hm haid

theorem loadAll_sorted_stable_skip_filter_witness :
    smC10.LoadAll fsC10 [] "/w" "mysql" = .ok [hK3] ∧
    smC10.LoadAll fsC10 [] "/w" "mysql" =
      smC10p.LoadAll fsC10 [] "/w" "mysql" ∧
    equalFold hK3.adapter "mysql" = true := by
  refine ⟨?_, ?_, ?_⟩
  · exact ((loadAll_sorted_stable_skip_filter smC10 smC10p fsC10 [] "/w"
      "mysql").2.1 (by decide)).trans (by decide)
  · exact (loadAll_sorted_stable_skip_filter smC10 smC10p fsC10 [] "/w"
      "mysql").2.2.1 (by decide) (by decide) (by decide)
  · exact (loadAll_sorted_stable_skip_filter smC10 smC10p fsC10 [] "/w"
      "mysql").2.2.2 [hK3] (by decide) hK3 (by decide) (by decide)
